import Mathlib

/-!
# TinyCrypt SHA-3 (`lib/source/sha3.c`): a shallow embedding and its properties

The C code works on `struct tc_sha3_state_struct` through a pointer.  Here a
pointer that may be null is an `Option`, the structure is a Lean structure, and
every function takes the structure and returns the updated one.

* a `uint64_t` lane is a `Nat`; the only operation of the code that can leave
  the 64-bit range, the left shift of `ROTL64`, is reduced modulo `2 ^ 64`;
* a `uint8_t` is a `Nat`; a store through a `uint8_t *` keeps the value modulo `256`;
* `size_t` is taken to be 64 bits wide;
* the lane array `S` is a list of 25 lanes, the block buffer `leftover`
  (24 lanes, i.e. 192 bytes, only ever written through a `uint8_t *`) is a list
  of 192 bytes; a lane read from that buffer and a byte read from the lane
  array use the little-endian object representation;
* an array read is `List.getD _ _ 0`, an array write is `List.set`.
-/

namespace TinyCrypt

/-! ## Constants and helpers of the headers -/

/-- Number of lanes of the permutation state, `TC_SHA3_PERMUTATION_WIDTH` of `sha3.h`. -/
def TC_SHA3_PERMUTATION_WIDTH : Nat := 25

/-- Variant selector `TC_SHA3_224` of `sha3.h`. -/
def TC_SHA3_224 : Nat := 224

/-- Variant selector `TC_SHA3_256` of `sha3.h`. -/
def TC_SHA3_256 : Nat := 256

/-- Variant selector `TC_SHA3_384` of `sha3.h`. -/
def TC_SHA3_384 : Nat := 384

/-- Variant selector `TC_SHA3_512` of `sha3.h`. -/
def TC_SHA3_512 : Nat := 512

/-- Modelled from the spec: `tinycrypt/constants.h` is not among the sources; the
success sentinel is the value `1` that the documentation of `sha3.h` gives for
`TC_CRYPTO_SUCCESS`. -/
def TC_CRYPTO_SUCCESS : Int := 1

/-- Modelled from the spec: `tinycrypt/constants.h` is not among the sources; the
failure sentinel is the value `0` that the documentation of `sha3.h` gives for
`TC_CRYPTO_FAIL`. -/
def TC_CRYPTO_FAIL : Int := 0

/-- Number of rounds, `NumberOfRounds` of `sha3.c`. -/
def NumberOfRounds : Nat := 24

/-- Size in bytes of the block buffer: `sizeof(s->leftover)`, 24 lanes of 8 bytes. -/
def sizeof_leftover : Nat := (TC_SHA3_PERMUTATION_WIDTH - 1) * 8

/-- Modelled from the spec: `_set` of `tinycrypt/utils.h` is not among the sources;
it overwrites `len` bytes starting at byte `off` of the buffer with `val`
(the spec's "zero-fills the remainder" / "overwrites with zeros").  Bytes before
`off` and from `off + len` on are kept. -/
def _set (buf : List Nat) (off val len : Nat) : List Nat :=
  buf.take off ++ (List.replicate len (val % 256) ++ buf.drop (off + len))

/-- The state structure `struct tc_sha3_state_struct` of `sha3.h`. -/
structure tc_sha3_state_struct where
  /-- Field `size_t block_size`, the message block size (rate) in bytes. -/
  block_size : Nat
  /-- Field `uint64_t S[25]`, the 1600-bit internal state, one `Nat` per lane. -/
  S : List Nat
  /-- Field `uint64_t leftover[24]`, seen as its 192 bytes. -/
  leftover : List Nat
  /-- Field `size_t leftover_offset`, count of bytes in the block buffer. -/
  leftover_offset : Nat
deriving DecidableEq, Repr

/-- The state handle `TCSha3State_t`: a pointer, `none` when null. -/
abbrev TCSha3State_t := Option tc_sha3_state_struct

/-! ## Permutation engine -/

/-- The C function `ROTL64`: `(a << n) | (a >> (64 - n))` on `uint64_t`.  The left
shift drops the bits that leave the lane; the right shift is the shift of the
value, so that for `n = 0`, where C shifts by the full width 64, every bit of a
lane is shifted out. -/
def ROTL64 (a n : Nat) : Nat :=
  ((a <<< n) % 2 ^ 64) ||| (a >>> (64 - n))

/-- Bitwise complement `~a` of a `uint64_t`. -/
def not64 (a : Nat) : Nat := (2 ^ 64 - 1) ^^^ a

/-- The θ step mapping, C function `theta`. -/
def theta (S : List Nat) : List Nat :=
  let C0 := S.getD 0 0 ^^^ S.getD (0 + 5) 0 ^^^ S.getD (0 + 10) 0 ^^^ S.getD (0 + 15) 0 ^^^ S.getD (0 + 20) 0
  let C1 := S.getD 1 0 ^^^ S.getD (1 + 5) 0 ^^^ S.getD (1 + 10) 0 ^^^ S.getD (1 + 15) 0 ^^^ S.getD (1 + 20) 0
  let C2 := S.getD 2 0 ^^^ S.getD (2 + 5) 0 ^^^ S.getD (2 + 10) 0 ^^^ S.getD (2 + 15) 0 ^^^ S.getD (2 + 20) 0
  let C3 := S.getD 3 0 ^^^ S.getD (3 + 5) 0 ^^^ S.getD (3 + 10) 0 ^^^ S.getD (3 + 15) 0 ^^^ S.getD (3 + 20) 0
  let C4 := S.getD 4 0 ^^^ S.getD (4 + 5) 0 ^^^ S.getD (4 + 10) 0 ^^^ S.getD (4 + 15) 0 ^^^ S.getD (4 + 20) 0
  let D0 := C4 ^^^ ROTL64 C1 1
  let D1 := C0 ^^^ ROTL64 C2 1
  let D2 := C1 ^^^ ROTL64 C3 1
  let D3 := C2 ^^^ ROTL64 C4 1
  let D4 := C3 ^^^ ROTL64 C0 1
  let S := S.set 0 (S.getD 0 0 ^^^ D0)
  let S := S.set (0 + 5) (S.getD (0 + 5) 0 ^^^ D0)
  let S := S.set (0 + 10) (S.getD (0 + 10) 0 ^^^ D0)
  let S := S.set (0 + 15) (S.getD (0 + 15) 0 ^^^ D0)
  let S := S.set (0 + 20) (S.getD (0 + 20) 0 ^^^ D0)
  let S := S.set 1 (S.getD 1 0 ^^^ D1)
  let S := S.set (1 + 5) (S.getD (1 + 5) 0 ^^^ D1)
  let S := S.set (1 + 10) (S.getD (1 + 10) 0 ^^^ D1)
  let S := S.set (1 + 15) (S.getD (1 + 15) 0 ^^^ D1)
  let S := S.set (1 + 20) (S.getD (1 + 20) 0 ^^^ D1)
  let S := S.set 2 (S.getD 2 0 ^^^ D2)
  let S := S.set (2 + 5) (S.getD (2 + 5) 0 ^^^ D2)
  let S := S.set (2 + 10) (S.getD (2 + 10) 0 ^^^ D2)
  let S := S.set (2 + 15) (S.getD (2 + 15) 0 ^^^ D2)
  let S := S.set (2 + 20) (S.getD (2 + 20) 0 ^^^ D2)
  let S := S.set 3 (S.getD 3 0 ^^^ D3)
  let S := S.set (3 + 5) (S.getD (3 + 5) 0 ^^^ D3)
  let S := S.set (3 + 10) (S.getD (3 + 10) 0 ^^^ D3)
  let S := S.set (3 + 15) (S.getD (3 + 15) 0 ^^^ D3)
  let S := S.set (3 + 20) (S.getD (3 + 20) 0 ^^^ D3)
  let S := S.set 4 (S.getD 4 0 ^^^ D4)
  let S := S.set (4 + 5) (S.getD (4 + 5) 0 ^^^ D4)
  let S := S.set (4 + 10) (S.getD (4 + 10) 0 ^^^ D4)
  let S := S.set (4 + 15) (S.getD (4 + 15) 0 ^^^ D4)
  let S := S.set (4 + 20) (S.getD (4 + 20) 0 ^^^ D4)
  S

/-- The table `rho_offsets` of `sha3.c`, entry `x + 5 y` for the lane `A[x, y]`;
written here one row `y` at a time. -/
def rho_offsets : List Nat :=
  [0, 1, 62, 28, 27] ++ [36, 44, 6, 55, 20] ++ [3, 10, 43, 25, 39] ++
    [41, 45, 15, 21, 8] ++ [18, 2, 61, 56, 14]

/-- The ρ step mapping, C function `rho`: the loop
`for (i = 0; i < 25; ++i) S[i] = ROTL64(S[i], rho_offsets[i])`. -/
def rho (S : List Nat) : List Nat :=
  (List.range TC_SHA3_PERMUTATION_WIDTH).foldl
    (fun S i => S.set i (ROTL64 (S.getD i 0) (rho_offsets.getD i 0))) S

/-- The π step mapping, C function `pi`: the unrolled chain of in-place moves. -/
def pi (S : List Nat) : List Nat :=
  let S_1 := S.getD 1 0
  let S := S.set 0 (S.getD 0 0)
  let S := S.set 1 (S.getD 6 0)
  let S := S.set 6 (S.getD 9 0)
  let S := S.set 9 (S.getD 22 0)
  let S := S.set 22 (S.getD 14 0)
  let S := S.set 14 (S.getD 20 0)
  let S := S.set 20 (S.getD 2 0)
  let S := S.set 2 (S.getD 12 0)
  let S := S.set 12 (S.getD 13 0)
  let S := S.set 13 (S.getD 19 0)
  let S := S.set 19 (S.getD 23 0)
  let S := S.set 23 (S.getD 15 0)
  let S := S.set 15 (S.getD 4 0)
  let S := S.set 4 (S.getD 24 0)
  let S := S.set 24 (S.getD 21 0)
  let S := S.set 21 (S.getD 8 0)
  let S := S.set 8 (S.getD 16 0)
  let S := S.set 16 (S.getD 5 0)
  let S := S.set 5 (S.getD 3 0)
  let S := S.set 3 (S.getD 18 0)
  let S := S.set 18 (S.getD 17 0)
  let S := S.set 17 (S.getD 11 0)
  let S := S.set 11 (S.getD 7 0)
  let S := S.set 7 (S.getD 10 0)
  let S := S.set 10 S_1
  S

/-- The χ step mapping, C function `chi`: the five unrolled rows, each saving its
first two lanes in `S_0`, `S_1` before the in-place updates. -/
def chi (S : List Nat) : List Nat :=
  let S_0 := S.getD 0 0
  let S_1 := S.getD 1 0
  let S := S.set 0 (S.getD 0 0 ^^^ (not64 S_1 &&& S.getD 2 0))
  let S := S.set 1 (S.getD 1 0 ^^^ (not64 (S.getD 2 0) &&& S.getD 3 0))
  let S := S.set 2 (S.getD 2 0 ^^^ (not64 (S.getD 3 0) &&& S.getD 4 0))
  let S := S.set 3 (S.getD 3 0 ^^^ (not64 (S.getD 4 0) &&& S_0))
  let S := S.set 4 (S.getD 4 0 ^^^ (not64 S_0 &&& S_1))
  let S_0 := S.getD 5 0
  let S_1 := S.getD 6 0
  let S := S.set 5 (S.getD 5 0 ^^^ (not64 S_1 &&& S.getD 7 0))
  let S := S.set 6 (S.getD 6 0 ^^^ (not64 (S.getD 7 0) &&& S.getD 8 0))
  let S := S.set 7 (S.getD 7 0 ^^^ (not64 (S.getD 8 0) &&& S.getD 9 0))
  let S := S.set 8 (S.getD 8 0 ^^^ (not64 (S.getD 9 0) &&& S_0))
  let S := S.set 9 (S.getD 9 0 ^^^ (not64 S_0 &&& S_1))
  let S_0 := S.getD 10 0
  let S_1 := S.getD 11 0
  let S := S.set 10 (S.getD 10 0 ^^^ (not64 S_1 &&& S.getD 12 0))
  let S := S.set 11 (S.getD 11 0 ^^^ (not64 (S.getD 12 0) &&& S.getD 13 0))
  let S := S.set 12 (S.getD 12 0 ^^^ (not64 (S.getD 13 0) &&& S.getD 14 0))
  let S := S.set 13 (S.getD 13 0 ^^^ (not64 (S.getD 14 0) &&& S_0))
  let S := S.set 14 (S.getD 14 0 ^^^ (not64 S_0 &&& S_1))
  let S_0 := S.getD 15 0
  let S_1 := S.getD 16 0
  let S := S.set 15 (S.getD 15 0 ^^^ (not64 S_1 &&& S.getD 17 0))
  let S := S.set 16 (S.getD 16 0 ^^^ (not64 (S.getD 17 0) &&& S.getD 18 0))
  let S := S.set 17 (S.getD 17 0 ^^^ (not64 (S.getD 18 0) &&& S.getD 19 0))
  let S := S.set 18 (S.getD 18 0 ^^^ (not64 (S.getD 19 0) &&& S_0))
  let S := S.set 19 (S.getD 19 0 ^^^ (not64 S_0 &&& S_1))
  let S_0 := S.getD 20 0
  let S_1 := S.getD 21 0
  let S := S.set 20 (S.getD 20 0 ^^^ (not64 S_1 &&& S.getD 22 0))
  let S := S.set 21 (S.getD 21 0 ^^^ (not64 (S.getD 22 0) &&& S.getD 23 0))
  let S := S.set 22 (S.getD 22 0 ^^^ (not64 (S.getD 23 0) &&& S.getD 24 0))
  let S := S.set 23 (S.getD 23 0 ^^^ (not64 (S.getD 24 0) &&& S_0))
  let S := S.set 24 (S.getD 24 0 ^^^ (not64 S_0 &&& S_1))
  S

/-- The round-constant table `iotas` of `sha3.c`. -/
def iotas : List Nat :=
  [0x0000000000000001, 0x0000000000008082, 0x800000000000808a, 0x8000000080008000,
   0x000000000000808b, 0x0000000080000001, 0x8000000080008081, 0x8000000000008009,
   0x000000000000008a, 0x0000000000000088, 0x0000000080008009, 0x000000008000000a,
   0x000000008000808b, 0x800000000000008b, 0x8000000000008089, 0x8000000000008003,
   0x8000000000008002, 0x8000000000000080, 0x000000000000800a, 0x800000008000000a,
   0x8000000080008081, 0x8000000000008080, 0x0000000080000001, 0x8000000080008008]

/-- Body of the round loop of `absorb`:
`theta(S); rho(S); pi(S); chi(S); S[0] ^= iotas[round];`. -/
def round_body (S : List Nat) (round : Nat) : List Nat :=
  let S := theta S
  let S := rho S
  let S := pi S
  let S := chi S
  S.set 0 (S.getD 0 0 ^^^ iotas.getD round 0)

/-- The round loop of `absorb`: `for (round = 0; round < NumberOfRounds; ++round)`. -/
def keccak_rounds (S : List Nat) : List Nat :=
  (List.range NumberOfRounds).foldl round_body S

/-! ## Sponge controller -/

/-- The lane `s->leftover[i]`: the `uint64_t` whose little-endian bytes are the
bytes `8 i .. 8 i + 7` of the block buffer. -/
def leftover_lane (leftover : List Nat) (i : Nat) : Nat :=
  (List.range 8).foldl (fun acc j => acc ||| (leftover.getD (8 * i + j) 0 <<< (8 * j))) 0

/-- The first loop of `absorb`: `for (i = 0; i < block_size/8; ++i) S[i] ^= leftover[i]`. -/
def xor_block (S leftover : List Nat) (block_size : Nat) : List Nat :=
  (List.range (block_size / 8)).foldl
    (fun S i => S.set i (S.getD i 0 ^^^ leftover_lane leftover i)) S

/-- The C function `absorb`: block XOR, then the 24 rounds. -/
def absorb (s : tc_sha3_state_struct) : tc_sha3_state_struct :=
  { s with S := keccak_rounds (xor_block s.S s.leftover s.block_size) }

/-- Modelled from the spec: the effect of `_set` (of `tinycrypt/utils.h`, not among
the sources) on the whole structure, `_set((uint8_t *) s, 0x00, sizeof(*s))`:
every field is overwritten with zero bytes. -/
def zeroed : tc_sha3_state_struct :=
  { block_size := 0
    S := List.replicate TC_SHA3_PERMUTATION_WIDTH 0
    leftover := List.replicate sizeof_leftover 0
    leftover_offset := 0 }

/-- The C function `tc_sha3_init`.  Returns the status and the state the handle
points to afterwards. -/
def tc_sha3_init (s : TCSha3State_t) (bitsize : Nat) : Int × TCSha3State_t :=
  match s with
  | none => (TC_CRYPTO_FAIL, none)
  | some s0 =>
    if bitsize ≠ TC_SHA3_224 ∧ bitsize ≠ TC_SHA3_256 ∧
        bitsize ≠ TC_SHA3_384 ∧ bitsize ≠ TC_SHA3_512 then
      (TC_CRYPTO_FAIL, some s0)
    else
      (TC_CRYPTO_SUCCESS, some { zeroed with block_size := (1600 - bitsize * 2) / 8 })

/-- Body of the `while` loop of `tc_sha3_update` for one input byte `b`:
store the byte at `leftover_offset`, advance the offset, and absorb and reset
when the offset has reached the block size. -/
def update_byte (s : tc_sha3_state_struct) (b : Nat) : tc_sha3_state_struct :=
  let s := { s with leftover := s.leftover.set s.leftover_offset (b % 256)
                    leftover_offset := (s.leftover_offset + 1) % 2 ^ 64 }
  if s.leftover_offset ≥ s.block_size then
    { absorb s with leftover_offset := 0 }
  else s

/-- The C function `tc_sha3_update`.  `data` is the caller's buffer (`none` when
the pointer is null), of which the loop reads the first `datalen` bytes in order.
Returns the status and the state the handle points to afterwards. -/
def tc_sha3_update (s : TCSha3State_t) (data : Option (List Nat)) (datalen : Nat) :
    Int × TCSha3State_t :=
  match s, data with
  | none, _ => (TC_CRYPTO_FAIL, none)
  | some s0, none => (TC_CRYPTO_FAIL, some s0)
  | some s0, some d =>
    if datalen = 0 then (TC_CRYPTO_SUCCESS, some s0)
    else (TC_CRYPTO_SUCCESS, some ((d.take datalen).foldl update_byte s0))

/-- The byte `((uint8_t *)s->S)[i]` of the lane array, little-endian. -/
def S_byte (S : List Nat) (i : Nat) : Nat :=
  (S.getD (i / 8) 0 >>> (8 * (i % 8))) % 256

/-- Result of a call of `tc_sha3_final`: the status, the output buffer and the
state after the call. -/
structure final_result where
  /-- Return value of the call. -/
  status : Int
  /-- The output buffer `digest` after the call (`none` when the pointer is null). -/
  digest : Option (List Nat)
  /-- What the state handle points to after the call. -/
  state : TCSha3State_t
deriving DecidableEq, Repr

/-- The local `digest_length` of `tc_sha3_final`: `100 - s->block_size / 2` in
`size_t` arithmetic. -/
def digest_length (s : tc_sha3_state_struct) : Nat :=
  (100 + (2 ^ 64 - (s.block_size / 2) % 2 ^ 64)) % 2 ^ 64

/-- The three padding statements of `tc_sha3_final`: zero-fill
`sizeof(s->leftover) - leftover_offset` bytes of the block buffer from
`leftover_offset` on, OR `0x06` into the byte at `leftover_offset`, OR `0x80` into
the byte at `block_size - 1`; both differences in `size_t` arithmetic. -/
def pad_leftover (s : tc_sha3_state_struct) : List Nat :=
  let len := (sizeof_leftover + (2 ^ 64 - s.leftover_offset % 2 ^ 64)) % 2 ^ 64
  let lo := _set s.leftover s.leftover_offset 0x00 len
  let lo := lo.set s.leftover_offset (lo.getD s.leftover_offset 0 ||| 0x06)
  let last := (s.block_size + (2 ^ 64 - 1)) % 2 ^ 64
  lo.set last (lo.getD last 0 ||| 0x80)

/-- The bytes that the copy loop of `tc_sha3_final` writes, in order: the padded
block is absorbed, then `digest_length` bytes of the lane array are read. -/
def final_bytes (s : tc_sha3_state_struct) : List Nat :=
  let s1 := absorb { s with leftover := pad_leftover s }
  (List.range (digest_length s)).map (S_byte s1.S)

/-- The C function `tc_sha3_final`.  The initialiser of `digest_length` reads
`s->block_size` before the null checks, so with a null state handle the call has
no defined result: `none`.  Otherwise `some` of the status, the output buffer and
the state.  The copy loop overwrites the first `digest_length` bytes of the
output buffer, the rest of the buffer is kept. -/
def tc_sha3_final (digest : Option (List Nat)) (s : TCSha3State_t) : Option final_result :=
  match s with
  | none => none
  | some s0 =>
    match digest with
    | none => some { status := TC_CRYPTO_FAIL, digest := none, state := some s0 }
    | some out =>
      some { status := TC_CRYPTO_SUCCESS
             digest := some (final_bytes s0 ++ out.drop (digest_length s0))
             state := some zeroed }

/-! ## Test vectors of `tests/test_sha3.c` -/

/-- The message `"abc"` of `test_1`. -/
def test_1_m : List Nat := [0x61, 0x62, 0x63]

/-- The array `expected` of `test_1`. -/
def test_1_expected : List Nat :=
  [0x3a, 0x98, 0x5d, 0xa7, 0x4f, 0xe2, 0x25, 0xb2, 0x04, 0x5c, 0x17, 0x2d,
   0x6b, 0xd3, 0x90, 0xbd, 0x85, 0x5f, 0x08, 0x6e, 0x3e, 0x9d, 0x52, 0x5b,
   0x46, 0xbf, 0xe2, 0x45, 0x11, 0x43, 0x15, 0x32]

/-- The message of `test_2`, the 56 characters
`abcdbcdecdefdefgefghfghighijhijkijkljklmklmnlmnomnopnopq`. -/
def test_2_m : List Nat :=
  [0x61, 0x62, 0x63, 0x64, 0x62, 0x63, 0x64, 0x65, 0x63, 0x64, 0x65, 0x66, 0x64, 0x65,
   0x66, 0x67, 0x65, 0x66, 0x67, 0x68, 0x66, 0x67, 0x68, 0x69, 0x67, 0x68, 0x69, 0x6a,
   0x68, 0x69, 0x6a, 0x6b, 0x69, 0x6a, 0x6b, 0x6c, 0x6a, 0x6b, 0x6c, 0x6d, 0x6b, 0x6c,
   0x6d, 0x6e, 0x6c, 0x6d, 0x6e, 0x6f, 0x6d, 0x6e, 0x6f, 0x70, 0x6e, 0x6f, 0x70, 0x71]

/-- The array `expected` of `test_2`. -/
def test_2_expected : List Nat :=
  [0x41, 0xc0, 0xdb, 0xa2, 0xa9, 0xd6, 0x24, 0x08, 0x49, 0x10, 0x03, 0x76,
   0xa8, 0x23, 0x5e, 0x2c, 0x82, 0xe1, 0xb9, 0x99, 0x8a, 0x99, 0x9e, 0x21,
   0xdb, 0x32, 0xdd, 0x97, 0x49, 0x6d, 0x33, 0x76]

/-- The call sequence of `test_1` and `test_2`: `tc_sha3_init(&s, bitsize)`, one
`tc_sha3_update(&s, m, strlen(m))`, then `tc_sha3_final(digest, &s)`, on a state
`s0` and an output buffer `out` of arbitrary prior content. -/
def hash_once (s0 : tc_sha3_state_struct) (out : List Nat) (bitsize : Nat) (m : List Nat) :
    Option final_result :=
  tc_sha3_final (some out) (tc_sha3_update (tc_sha3_init (some s0) bitsize).2 (some m) m.length).2

/-- A caller that feeds the segments `segs` in order, one `tc_sha3_update` call per
segment with the segment's length, checking every return value: it stops at the
first call that does not return success.  Returns the last status and the state. -/
def update_segments : TCSha3State_t → List (List Nat) → Int × TCSha3State_t
  | s, [] => (TC_CRYPTO_SUCCESS, s)
  | s, seg :: rest =>
    if (tc_sha3_update s (some seg) seg.length).1 = TC_CRYPTO_SUCCESS then
      update_segments (tc_sha3_update s (some seg) seg.length).2 rest
    else tc_sha3_update s (some seg) seg.length

/-- The four supported variants. -/
def supported (bitsize : Nat) : Prop :=
  bitsize = TC_SHA3_224 ∨ bitsize = TC_SHA3_256 ∨ bitsize = TC_SHA3_384 ∨ bitsize = TC_SHA3_512

instance (bitsize : Nat) : Decidable (supported bitsize) := by
  unfold supported; infer_instance

/-- The state that a successful `tc_sha3_init` leaves for the variant `bitsize`. -/
def init_state (bitsize : Nat) : tc_sha3_state_struct :=
  { block_size := (1600 - bitsize * 2) / 8
    S := List.replicate 25 0
    leftover := List.replicate 192 0
    leftover_offset := 0 }

/-! ## The sponge reference (FIPS 202), written from the specification

These definitions do not come from `sha3.c`.  They follow the words of the
specification: the state is the 5 × 5 matrix `A[x, y] = lanes[x + 5 y]`, the step
mappings are given by their index formulas, the rotation offsets by the
triangular-number rule, the round constants by the linear feedback shift
register of the standard, and the sponge pads, cuts into blocks, absorbs and
squeezes.  The theorems below compare the embedding of the C code with them. -/

namespace Ref

/-- Lane `A[x, y]` of a state given as the list of its 25 lanes. -/
def lane (A : List Nat) (x y : Nat) : Nat := A.getD (x + 5 * y) 0

/-- The state whose lane `A[x, y]` is `f x y`. -/
def of_lanes (f : Nat → Nat → Nat) : List Nat :=
  (List.range 25).map fun i => f (i % 5) (i / 5)

/-- Rotation of a 64-bit lane to the left by `n` bits, `0 ≤ n < 64`: the low
`64 - n` bits move up by `n`, the high `n` bits come back at the bottom. -/
def rotl (a n : Nat) : Nat := a % 2 ^ (64 - n) * 2 ^ n + a / 2 ^ (64 - n)

/-- Column parity `C[x]`: XOR of the five lanes of column `x`. -/
def C (A : List Nat) (x : Nat) : Nat :=
  lane A x 0 ^^^ lane A x 1 ^^^ lane A x 2 ^^^ lane A x 3 ^^^ lane A x 4

/-- `D[x] = C[x - 1] XOR rotateLeft(C[x + 1], 1)`, indices modulo 5. -/
def D (A : List Nat) (x : Nat) : Nat :=
  C A ((x + 4) % 5) ^^^ rotl (C A ((x + 1) % 5)) 1

/-- Step θ: XOR `D[x]` into every lane of column `x`. -/
def theta (A : List Nat) : List Nat := of_lanes fun x y => lane A x y ^^^ D A x

/-- Position reached after `t` steps of the walk `(x, y) ↦ (y, (2 x + 3 y) mod 5)`
started at `(1, 0)`. -/
def rho_walk : Nat → Nat × Nat
  | 0 => (1, 0)
  | t + 1 => ((rho_walk t).2, (2 * (rho_walk t).1 + 3 * (rho_walk t).2) % 5)

/-- Rotation offset of lane `(x, y)` by the triangular-number rule: `0` at `(0, 0)`,
and `((t + 1)(t + 2) / 2) mod 64` at the position the walk reaches after `t` steps,
`t = 0 .. 23`. -/
def rho_offset (x y : Nat) : Nat :=
  match (List.range 24).find? fun t => rho_walk t = (x, y) with
  | some t => (t + 1) * (t + 2) / 2 % 64
  | none => 0

/-- Step ρ: rotate every lane left by its offset. -/
def rho (A : List Nat) : List Nat := of_lanes fun x y => rotl (lane A x y) (rho_offset x y)

/-- Step π: `A'[x, y] = A[(x + 3 y) mod 5, x]`. -/
def pi (A : List Nat) : List Nat := of_lanes fun x y => lane A ((x + 3 * y) % 5) x

/-- Step χ: `A'[x, y] = A[x, y] XOR ((NOT A[x + 1, y]) AND A[x + 2, y])`,
indices modulo 5 within the row; `NOT` is the complement on 64 bits. -/
def chi (A : List Nat) : List Nat :=
  of_lanes fun x y =>
    lane A x y ^^^ ((2 ^ 64 - 1 - lane A ((x + 1) % 5) y) &&& lane A ((x + 2) % 5) y)

/-- One step of the 8-bit linear feedback shift register of the standard, on the
bits `R[0] .. R[7]`: shift in a zero at the front, fold the bit shifted out
(`R[8]`) into positions 0, 4, 5 and 6, keep eight bits. -/
def lfsr_step (R : List Bool) : List Bool :=
  let R9 := false :: R
  let r8 := R9.getD 8 false
  [xor (R9.getD 0 false) r8, R9.getD 1 false, R9.getD 2 false, R9.getD 3 false,
   xor (R9.getD 4 false) r8, xor (R9.getD 5 false) r8, xor (R9.getD 6 false) r8,
   R9.getD 7 false]

/-- The bit `rc(t)` of the standard: `1` when `t mod 255 = 0`, otherwise bit `R[0]`
after `t mod 255` register steps from `R = 10000000`. -/
def rc (t : Nat) : Bool :=
  if t % 255 = 0 then true
  else ((lfsr_step^[t % 255])
    [true, false, false, false, false, false, false, false]).getD 0 false

/-- Round constant of round `i`: bit `2 ^ j - 1` is `rc(j + 7 i)` for `j = 0 .. 6`,
every other bit is zero. -/
def RC (i : Nat) : Nat :=
  ((List.range 7).map fun j => if rc (j + 7 * i) then 2 ^ (2 ^ j - 1) else 0).sum

/-- Step ι of round `i`: XOR the round constant into lane `(0, 0)`. -/
def iota (A : List Nat) (i : Nat) : List Nat :=
  of_lanes fun x y => if x = 0 ∧ y = 0 then lane A 0 0 ^^^ RC i else lane A x y

/-- One round: θ, then ρ, then π, then χ, then ι. -/
def round (A : List Nat) (i : Nat) : List Nat := iota (chi (pi (rho (theta A)))) i

/-- The permutation Keccak-f[1600]: rounds `0 .. 23` in order. -/
def keccak_f (A : List Nat) : List Nat := (List.range 24).foldl round A

/-- Rate in bytes of the variant with `b` digest bits. -/
def rate (b : Nat) : Nat := (1600 - 2 * b) / 8

/-- Padding of a message of `n` bytes at rate `r`: `0x06`, zero bytes, `0x80`, of the
least length `≥ 1` that completes a block; the single byte `0x86` when one byte
is needed. -/
def pad (r n : Nat) : List Nat :=
  if r - n % r = 1 then [0x86]
  else [0x06] ++ List.replicate (r - n % r - 2) 0x00 ++ [0x80]

/-- The 64-bit lane whose little-endian bytes are `bs`: byte `j` has weight `256 ^ j`. -/
def lane_of_bytes (bs : List Nat) : Nat :=
  ((List.range 8).map fun j => bs.getD j 0 * 256 ^ j).sum

/-- The consecutive `r`-byte blocks of `P`. -/
def blocks (r : Nat) (P : List Nat) : List (List Nat) :=
  (List.range (P.length / r)).map fun k => (P.drop (k * r)).take r

/-- XOR of an `r`-byte block, read as little-endian lanes, into lanes `0 .. r/8 - 1`. -/
def xor_block (r : Nat) (A block : List Nat) : List Nat :=
  (List.range 25).map fun i =>
    if i < r / 8 then A.getD i 0 ^^^ lane_of_bytes ((block.drop (8 * i)).take 8)
    else A.getD i 0

/-- Absorption of one block: XOR it in, then permute. -/
def absorb_block (r : Nat) (A block : List Nat) : List Nat := keccak_f (xor_block r A block)

/-- Absorption of a list of blocks, in order. -/
def absorb_blocks (r : Nat) (A : List Nat) (bs : List (List Nat)) : List Nat :=
  bs.foldl (absorb_block r) A

/-- The eight bytes of a lane in little-endian order. -/
def lane_bytes (a : Nat) : List Nat := (List.range 8).map fun j => a / 256 ^ j % 256

/-- The bytes of a state: its lanes in order, each in little-endian byte order. -/
def state_bytes (A : List Nat) : List Nat := A.flatMap lane_bytes

/-- SHA3-`b` of the byte sequence `M` by the sponge reference: pad, absorb the
blocks from the all-zero state, output the first `b / 8` bytes of the state. -/
def sha3 (b : Nat) (M : List Nat) : List Nat :=
  (state_bytes (absorb_blocks (rate b) (List.replicate 25 0)
    (blocks (rate b) (M ++ pad (rate b) M.length)))).take (b / 8)

end Ref

/-! ## Invariants -/

/-- A well-formed lane array: 25 lanes, each below `2 ^ 64`. -/
def Lanes64 (S : List Nat) : Prop := S.length = 25 ∧ ∀ a ∈ S, a < 2 ^ 64

/-- The state `s` is absorbing at rate `r`: its lanes are the well-formed lane
array `A`, its block buffer has 192 bytes below 256 and starts with the `pending`
bytes not yet absorbed, fewer than `r`, and its offset is their number. -/
structure Absorbing (r : Nat) (A pending : List Nat) (s : tc_sha3_state_struct) : Prop where
  /-- The rate of the state. -/
  rate : s.block_size = r
  /-- The lanes of the state. -/
  lanes : s.S = A
  /-- The lanes are 25 values below `2 ^ 64`. -/
  lanes64 : Lanes64 A
  /-- The block buffer has 192 bytes. -/
  buf_len : s.leftover.length = 192
  /-- The bytes of the block buffer are below 256. -/
  buf_bytes : ∀ a ∈ s.leftover, a < 256
  /-- The offset counts the pending bytes. -/
  offset : s.leftover_offset = pending.length
  /-- Fewer than `r` bytes are pending. -/
  pending_lt : pending.length < r
  /-- The pending bytes are the first bytes of the block buffer. -/
  buffered : s.leftover.take pending.length = pending

/-- States reachable in a hash computation of the variant `bitsize`: what a
successful `tc_sha3_init(s, bitsize)` leaves, and what a successful
`tc_sha3_update` leaves when called on a reachable state. -/
inductive Reachable (bitsize : Nat) : tc_sha3_state_struct → Prop
  | init (s0 t : tc_sha3_state_struct)
      (h : tc_sha3_init (some s0) bitsize = (TC_CRYPTO_SUCCESS, some t)) : Reachable bitsize t
  | update (t t' : tc_sha3_state_struct) (data : Option (List Nat)) (datalen : Nat)
      (ht : Reachable bitsize t)
      (h : tc_sha3_update (some t) data datalen = (TC_CRYPTO_SUCCESS, some t')) :
      Reachable bitsize t'

/-! ## Bounds-checked embedding

The sponge controller once more, with every access to the lane array, to the
block buffer and to the round-constant table checked against the size of the
array: an access outside its array gives `none`.  The arithmetic is the same
`size_t` arithmetic as above, so a difference that wraps shows up as an index or
a length outside the array.  The lists `S` and `leftover` stand for the arrays
`uint64_t S[25]` and `uint64_t leftover[24]` (192 bytes). -/

/-- Checked array write `a[i] = v`. -/
def store_checked (a : List Nat) (i v : Nat) : Option (List Nat) :=
  if i < a.length then some (a.set i v) else none

/-- Checked read of the lane `s->leftover[i]`: its eight bytes lie inside the block
buffer. -/
def leftover_lane_checked (leftover : List Nat) (i : Nat) : Option Nat :=
  if 8 * i + 8 ≤ leftover.length then some (leftover_lane leftover i) else none

/-- The XOR loop of `absorb` over the lane indices `idx`, reading `S[i]` and
`leftover[i]` checked. -/
def xor_block_checked (leftover : List Nat) : List Nat → List Nat → Option (List Nat)
  | [], S => some S
  | i :: idx, S =>
    match S[i]?, leftover_lane_checked leftover i with
    | some a, some w => xor_block_checked leftover idx (S.set i (a ^^^ w))
    | _, _ => none

/-- The round loop of `absorb` over the round numbers `rounds`: the lane array must
hold the 25 lanes that the step mappings index with constants, and the read of
`iotas[round]` is checked. -/
def keccak_rounds_checked : List Nat → List Nat → Option (List Nat)
  | [], S => some S
  | round :: rounds, S =>
    if S.length = TC_SHA3_PERMUTATION_WIDTH then
      match iotas[round]? with
      | some c =>
        keccak_rounds_checked rounds
          ((chi (pi (rho (theta S)))).set 0 ((chi (pi (rho (theta S)))).getD 0 0 ^^^ c))
      | none => none
    else none

/-- The C function `absorb` with checked accesses. -/
def absorb_checked (s : tc_sha3_state_struct) : Option tc_sha3_state_struct :=
  match xor_block_checked s.leftover (List.range (s.block_size / 8)) s.S with
  | some S1 =>
    match keccak_rounds_checked (List.range NumberOfRounds) S1 with
    | some S2 => some { s with S := S2 }
    | none => none
  | none => none

/-- Body of the `while` loop of `tc_sha3_update` with the store into the block
buffer checked. -/
def update_byte_checked (s : tc_sha3_state_struct) (b : Nat) : Option tc_sha3_state_struct :=
  match store_checked s.leftover s.leftover_offset (b % 256) with
  | none => none
  | some lo =>
    if (s.leftover_offset + 1) % 2 ^ 64 ≥ s.block_size then
      match absorb_checked { s with leftover := lo
                                    leftover_offset := (s.leftover_offset + 1) % 2 ^ 64 } with
      | some s1 => some { s1 with leftover_offset := 0 }
      | none => none
    else some { s with leftover := lo, leftover_offset := (s.leftover_offset + 1) % 2 ^ 64 }

/-- The `while` loop of `tc_sha3_update` over the bytes read, checked. -/
def update_loop_checked : List Nat → tc_sha3_state_struct → Option tc_sha3_state_struct
  | [], s => some s
  | b :: bs, s =>
    match update_byte_checked s b with
    | some s1 => update_loop_checked bs s1
    | none => none

/-- The C function `tc_sha3_update` with checked accesses to the state. -/
def tc_sha3_update_checked (s : TCSha3State_t) (data : Option (List Nat)) (datalen : Nat) :
    Option (Int × TCSha3State_t) :=
  match s, data with
  | none, _ => some (TC_CRYPTO_FAIL, none)
  | some s0, none => some (TC_CRYPTO_FAIL, some s0)
  | some s0, some d =>
    if datalen = 0 then some (TC_CRYPTO_SUCCESS, some s0)
    else
      match update_loop_checked (d.take datalen) s0 with
      | some s1 => some (TC_CRYPTO_SUCCESS, some s1)
      | none => none

/-- The padding statements of `tc_sha3_final`, checked: the zero-filled region
lies inside the block buffer, and so do the two bytes that are ORed into. -/
def pad_leftover_checked (s : tc_sha3_state_struct) : Option (List Nat) :=
  if s.leftover_offset + (sizeof_leftover + (2 ^ 64 - s.leftover_offset % 2 ^ 64)) % 2 ^ 64
      ≤ s.leftover.length then
    match (_set s.leftover s.leftover_offset 0x00
        ((sizeof_leftover + (2 ^ 64 - s.leftover_offset % 2 ^ 64)) % 2 ^ 64))[s.leftover_offset]? with
    | none => none
    | some v =>
      match ((_set s.leftover s.leftover_offset 0x00
          ((sizeof_leftover + (2 ^ 64 - s.leftover_offset % 2 ^ 64)) % 2 ^ 64)).set
            s.leftover_offset (v ||| 0x06))[(s.block_size + (2 ^ 64 - 1)) % 2 ^ 64]? with
      | none => none
      | some w =>
        some (((_set s.leftover s.leftover_offset 0x00
          ((sizeof_leftover + (2 ^ 64 - s.leftover_offset % 2 ^ 64)) % 2 ^ 64)).set
            s.leftover_offset (v ||| 0x06)).set
              ((s.block_size + (2 ^ 64 - 1)) % 2 ^ 64) (w ||| 0x80))
  else none

/-- The C function `tc_sha3_final` with checked accesses to the state: padding,
absorption, and the reads of the `digest_length` bytes of the lane array. -/
def tc_sha3_final_checked (digest : Option (List Nat)) (s : TCSha3State_t) :
    Option final_result :=
  match s with
  | none => none
  | some s0 =>
    match digest with
    | none => some { status := TC_CRYPTO_FAIL, digest := none, state := some s0 }
    | some out =>
      match pad_leftover_checked s0 with
      | none => none
      | some lo =>
        match absorb_checked { s0 with leftover := lo } with
        | none => none
        | some s1 =>
          if digest_length s0 ≤ 8 * s1.S.length then
            some { status := TC_CRYPTO_SUCCESS
                   digest := some ((List.range (digest_length s0)).map (S_byte s1.S) ++
                     out.drop (digest_length s0))
                   state := some zeroed }
          else none

/-! ## Properties -/

theorem tc_sha3_init_supported (s0 : tc_sha3_state_struct) (bitsize : Nat)
    (h : supported bitsize) :
    tc_sha3_init (some s0) bitsize = (TC_CRYPTO_SUCCESS, some (init_state bitsize)) := by
  rcases h with h | h | h | h <;> subst h <;> rfl

theorem tc_sha3_init_unsupported (s0 : tc_sha3_state_struct) (bitsize : Nat)
    (h : ¬ supported bitsize) :
    tc_sha3_init (some s0) bitsize = (TC_CRYPTO_FAIL, some s0) := by
  have h4 : bitsize ≠ TC_SHA3_224 ∧ bitsize ≠ TC_SHA3_256 ∧
      bitsize ≠ TC_SHA3_384 ∧ bitsize ≠ TC_SHA3_512 := by
    unfold supported at h
    tauto
  simp only [tc_sha3_init, if_pos h4]

/-- C5: a successful `tc_sha3_init` on any prior state and any of the four variants
returns success and leaves 25 zero lanes, 192 zero buffer bytes, offset 0 and the
rate `(1600 - 2 b) / 8`, i.e. 144, 136, 104, 72; the result does not depend on the
prior state. -/
theorem tc_sha3_init_postcondition (s0 : tc_sha3_state_struct) (b : Nat)
    (hb : b = 224 ∨ b = 256 ∨ b = 384 ∨ b = 512) :
    ∃ t : tc_sha3_state_struct,
      tc_sha3_init (some s0) b = (TC_CRYPTO_SUCCESS, some t) ∧
      t.S.length = 25 ∧ (∀ x ∈ t.S, x = 0) ∧
      t.leftover.length = 192 ∧ (∀ x ∈ t.leftover, x = 0) ∧
      t.leftover_offset = 0 ∧
      t.block_size = (1600 - 2 * b) / 8 ∧
      (b = 224 → t.block_size = 144) ∧ (b = 256 → t.block_size = 136) ∧
      (b = 384 → t.block_size = 104) ∧ (b = 512 → t.block_size = 72) ∧
      ∀ s0' : tc_sha3_state_struct, tc_sha3_init (some s0') b = tc_sha3_init (some s0) b := by
  refine ⟨init_state b, tc_sha3_init_supported s0 b hb, ?_, ?_, ?_, ?_, rfl, ?_, ?_, ?_, ?_, ?_, ?_⟩
  · exact List.length_replicate _ _
  · intro x hx; exact List.eq_of_mem_replicate hx
  · exact List.length_replicate _ _
  · intro x hx; exact List.eq_of_mem_replicate hx
  · show (1600 - b * 2) / 8 = (1600 - 2 * b) / 8
    rw [Nat.mul_comm]
  · rintro rfl; rfl
  · rintro rfl; rfl
  · rintro rfl; rfl
  · rintro rfl; rfl
  · intro s0'
    rw [tc_sha3_init_supported s0 b hb, tc_sha3_init_supported s0' b hb]

/-- Witness of C5 at the variant 256 and the all-zero prior state. -/
theorem tc_sha3_init_postcondition_witness :
    ∃ t : tc_sha3_state_struct,
      tc_sha3_init (some zeroed) 256 = (TC_CRYPTO_SUCCESS, some t) ∧
      t.S.length = 25 ∧ (∀ x ∈ t.S, x = 0) ∧
      t.leftover.length = 192 ∧ (∀ x ∈ t.leftover, x = 0) ∧
      t.leftover_offset = 0 ∧
      t.block_size = (1600 - 2 * 256) / 8 ∧
      ((256 : Nat) = 224 → t.block_size = 144) ∧ ((256 : Nat) = 256 → t.block_size = 136) ∧
      ((256 : Nat) = 384 → t.block_size = 104) ∧ ((256 : Nat) = 512 → t.block_size = 72) ∧
      ∀ s0' : tc_sha3_state_struct,
        tc_sha3_init (some s0') 256 = tc_sha3_init (some zeroed) 256 :=
  tc_sha3_init_postcondition zeroed 256 (by decide)

theorem digest_length_supported (s : tc_sha3_state_struct) (b : Nat)
    (hb : b = 224 ∨ b = 256 ∨ b = 384 ∨ b = 512) (hs : s.block_size = (1600 - 2 * b) / 8) :
    digest_length s = b / 8 := by
  unfold digest_length
  rcases hb with h | h | h | h <;> subst h <;> rw [hs] <;> rfl

/-- C6: for each variant `b`, on a state whose rate is the one `tc_sha3_init(b)`
sets, a successful `tc_sha3_final` overwrites exactly the first `b / 8` bytes of
the output buffer (28, 32, 48, 64) and keeps the rest; the length the code
derives, `100 - rate / 2`, is `b / 8` and does not exceed the rate. -/
theorem tc_sha3_final_digest_length (s : tc_sha3_state_struct) (out : List Nat) (b : Nat)
    (hb : b = 224 ∨ b = 256 ∨ b = 384 ∨ b = 512) (hs : s.block_size = (1600 - 2 * b) / 8) :
    digest_length s = 100 - s.block_size / 2 ∧
    digest_length s = b / 8 ∧
    digest_length s ≤ s.block_size ∧
    (b = 224 → digest_length s = 28) ∧ (b = 256 → digest_length s = 32) ∧
    (b = 384 → digest_length s = 48) ∧ (b = 512 → digest_length s = 64) ∧
    ∃ bytes : List Nat, bytes.length = b / 8 ∧
      tc_sha3_final (some out) (some s) =
        some { status := TC_CRYPTO_SUCCESS
               digest := some (bytes ++ out.drop (b / 8))
               state := some zeroed } := by
  have hd := digest_length_supported s b hb hs
  refine ⟨?_, hd, ?_, ?_, ?_, ?_, ?_, final_bytes s, ?_, ?_⟩
  · rw [hd, hs]; rcases hb with h | h | h | h <;> subst h <;> rfl
  · rw [hd, hs]; rcases hb with h | h | h | h <;> subst h <;> decide
  · rintro rfl; rw [hd]
  · rintro rfl; rw [hd]
  · rintro rfl; rw [hd]
  · rintro rfl; rw [hd]
  · simp only [final_bytes, List.length_map, List.length_range, hd]
  · simp only [tc_sha3_final, hd]

/-- Witness of C6 at the variant 256, the state right after `tc_sha3_init`. -/
theorem tc_sha3_final_digest_length_witness :
    digest_length (init_state 256) = 100 - (init_state 256).block_size / 2 ∧
    digest_length (init_state 256) = 256 / 8 ∧
    digest_length (init_state 256) ≤ (init_state 256).block_size ∧
    ((256 : Nat) = 224 → digest_length (init_state 256) = 28) ∧
    ((256 : Nat) = 256 → digest_length (init_state 256) = 32) ∧
    ((256 : Nat) = 384 → digest_length (init_state 256) = 48) ∧
    ((256 : Nat) = 512 → digest_length (init_state 256) = 64) ∧
    ∃ bytes : List Nat, bytes.length = 256 / 8 ∧
      tc_sha3_final (some (List.replicate 40 0xff)) (some (init_state 256)) =
        some { status := TC_CRYPTO_SUCCESS
               digest := some (bytes ++ (List.replicate 40 0xff).drop (256 / 8))
               state := some zeroed } :=
  tc_sha3_final_digest_length (init_state 256) (List.replicate 40 0xff) 256 (by decide) rfl

/-- C7: `tc_sha3_init` fails exactly when the state handle is null or the bitsize
is none of 224, 256, 384, 512 (so bitsize 200 fails); a failure on an unsupported
bitsize leaves the state as it was. -/
theorem tc_sha3_init_fails_iff (s : TCSha3State_t) (b : Nat) :
    ((tc_sha3_init s b).1 = TC_CRYPTO_FAIL ↔
      (s = none ∨ ¬ (b = 224 ∨ b = 256 ∨ b = 384 ∨ b = 512))) ∧
    ((tc_sha3_init s b).1 ≠ TC_CRYPTO_FAIL → (tc_sha3_init s b).1 = TC_CRYPTO_SUCCESS) ∧
    (¬ (b = 224 ∨ b = 256 ∨ b = 384 ∨ b = 512) → tc_sha3_init s b = (TC_CRYPTO_FAIL, s)) ∧
    tc_sha3_init s 200 = (TC_CRYPTO_FAIL, s) := by
  have h200 : tc_sha3_init s 200 = (TC_CRYPTO_FAIL, s) := by
    cases s with
    | none => rfl
    | some s0 => exact tc_sha3_init_unsupported s0 200 (by decide)
  cases s with
  | none =>
    refine ⟨⟨fun _ => Or.inl rfl, fun _ => rfl⟩, fun h => absurd rfl h, fun _ => rfl, h200⟩
  | some s0 =>
    by_cases hb : supported b
    · have h := tc_sha3_init_supported s0 b hb
      refine ⟨⟨?_, ?_⟩, fun _ => by rw [h], fun hn => absurd hb hn, h200⟩
      · intro hf
        rw [h] at hf
        have h10 : TC_CRYPTO_SUCCESS ≠ TC_CRYPTO_FAIL := by decide
        exact absurd hf h10
      · rintro (h0 | hn)
        · cases h0
        · exact absurd hb hn
    · have h := tc_sha3_init_unsupported s0 b hb
      refine ⟨⟨fun _ => Or.inr hb, fun _ => by rw [h]⟩, ?_, fun _ => h, h200⟩
      intro hne
      rw [h] at hne
      exact absurd rfl hne

theorem tc_sha3_update_length (s : tc_sha3_state_struct) (d : List Nat) :
    tc_sha3_update (some s) (some d) d.length = (TC_CRYPTO_SUCCESS, some (d.foldl update_byte s)) := by
  cases d with
  | nil => rfl
  | cons x xs =>
    simp only [tc_sha3_update, List.length_cons, Nat.succ_ne_zero, if_false]
    rw [← List.length_cons x xs, List.take_length]

/-- C8, counterexample: on the state that `tc_sha3_init(256)` leaves, a zero-length
`tc_sha3_update` with a null data pointer does not return success. -/
theorem tc_sha3_update_null_zero_not_success :
    ¬ ((tc_sha3_update (tc_sha3_init (some zeroed) 256).2 none 0).1 = TC_CRYPTO_SUCCESS) := by
  decide

/-- C8, amended: a zero-length `tc_sha3_update` with state and data pointer present
returns success and leaves the state unchanged; with a null data pointer
`tc_sha3_update` returns failure at every length, zero included, and leaves the
state unchanged. -/
theorem tc_sha3_update_zero_length (s : tc_sha3_state_struct) (d : List Nat) (n : Nat) :
    tc_sha3_update (some s) (some d) 0 = (TC_CRYPTO_SUCCESS, some s) ∧
    tc_sha3_update (some s) none n = (TC_CRYPTO_FAIL, some s) ∧
    TC_CRYPTO_FAIL ≠ TC_CRYPTO_SUCCESS :=
  ⟨rfl, rfl, by decide⟩

/-- C9: `tc_sha3_update` with a present state, a null data pointer and a length
above zero returns failure and leaves rate, lanes, block buffer and offset as they
were; with a null state handle it returns failure. -/
theorem tc_sha3_update_null_data (s : tc_sha3_state_struct) (data : Option (List Nat))
    (n : Nat) (_hn : 0 < n) :
    tc_sha3_update (some s) none n = (TC_CRYPTO_FAIL, some s) ∧
    (tc_sha3_update none data n).1 = TC_CRYPTO_FAIL :=
  ⟨rfl, by cases data <;> rfl⟩

/-- Witness of C9: three bytes announced, null data pointer, state after `tc_sha3_init(256)`. -/
theorem tc_sha3_update_null_data_witness :
    tc_sha3_update (some (init_state 256)) none 3 = (TC_CRYPTO_FAIL, some (init_state 256)) ∧
    (tc_sha3_update none (some test_1_m) 3).1 = TC_CRYPTO_FAIL :=
  tc_sha3_update_null_data (init_state 256) (some test_1_m) 3 (by decide)

/-- C10, the code at the failing input: with a null state handle `tc_sha3_final`
reads `s->block_size` before its null check, so the call has no defined result
(it does not return `TC_CRYPTO_FAIL`); with a present state and a null output
buffer it does return failure, with the state unchanged. -/
theorem tc_sha3_final_null_state (out : List Nat) (s : tc_sha3_state_struct) :
    tc_sha3_final (some out) none = none ∧
    tc_sha3_final none none = none ∧
    tc_sha3_final none (some s) =
      some { status := TC_CRYPTO_FAIL, digest := none, state := some s } :=
  ⟨rfl, rfl, rfl⟩

theorem hash_once_supported (s0 : tc_sha3_state_struct) (out : List Nat) (b : Nat)
    (hb : supported b) (m : List Nat) :
    hash_once s0 out b m =
      some { status := TC_CRYPTO_SUCCESS
             digest := some (final_bytes (m.foldl update_byte (init_state b)) ++
                        out.drop (digest_length (m.foldl update_byte (init_state b))))
             state := some zeroed } := by
  unfold hash_once
  rw [tc_sha3_init_supported s0 b hb]
  show tc_sha3_final (some out) (tc_sha3_update (some (init_state b)) (some m) m.length).2 = _
  rw [tc_sha3_update_length]
  rfl

theorem test_1_bytes :
    final_bytes (test_1_m.foldl update_byte (init_state TC_SHA3_256)) = test_1_expected ∧
    digest_length (test_1_m.foldl update_byte (init_state TC_SHA3_256)) = 32 := by
  decide!

theorem test_2_bytes :
    final_bytes (test_2_m.foldl update_byte (init_state TC_SHA3_256)) = test_2_expected ∧
    digest_length (test_2_m.foldl update_byte (init_state TC_SHA3_256)) = 32 := by
  decide!

/-- C2: the two known-answer vectors of `tests/test_sha3.c`.  Whatever the state
and the output buffer held before, `tc_sha3_init(256)`, one `tc_sha3_update` with
`"abc"` (resp. the 56-byte NIST string) and `tc_sha3_final` return success and
write the 32 expected bytes at the start of the output buffer. -/
theorem known_answer_vectors (s0 : tc_sha3_state_struct) (out : List Nat) :
    test_1_m.length = 3 ∧ test_2_m.length = 56 ∧
    test_1_expected.length = 32 ∧ test_2_expected.length = 32 ∧
    hash_once s0 out TC_SHA3_256 test_1_m =
      some { status := TC_CRYPTO_SUCCESS
             digest := some (test_1_expected ++ out.drop 32)
             state := some zeroed } ∧
    hash_once s0 out TC_SHA3_256 test_2_m =
      some { status := TC_CRYPTO_SUCCESS
             digest := some (test_2_expected ++ out.drop 32)
             state := some zeroed } := by
  have h256 : supported TC_SHA3_256 := by decide
  refine ⟨rfl, rfl, rfl, rfl, ?_, ?_⟩
  · rw [hash_once_supported s0 out _ h256]
    show some _ = some _
    rw [test_1_bytes.1, test_1_bytes.2]
  · rw [hash_once_supported s0 out _ h256]
    show some _ = some _
    rw [test_2_bytes.1, test_2_bytes.2]

theorem update_segments_flatten (segs : List (List Nat)) (s : tc_sha3_state_struct) :
    update_segments (some s) segs =
      (TC_CRYPTO_SUCCESS, some (segs.flatten.foldl update_byte s)) := by
  induction segs generalizing s with
  | nil => rfl
  | cons seg rest ih =>
    rw [update_segments, tc_sha3_update_length]
    simp only [if_true]
    rw [ih, List.flatten_cons, List.foldl_append]

/-- C3: chunking invariance.  On the state that `tc_sha3_init(b)` leaves, one
`tc_sha3_update` per segment of any splitting of `M` into consecutive non-empty
segments succeeds throughout and ends in the same state (rate, lanes, block
buffer, offset) as a single `tc_sha3_update` on `M`; `tc_sha3_final` then gives
the same result in both cases. -/
theorem chunking_invariance (s0 : tc_sha3_state_struct) (b : Nat) (M : List Nat)
    (segs : List (List Nat)) (out : List Nat)
    (_hb : b = 224 ∨ b = 256 ∨ b = 384 ∨ b = 512)
    (_hne : ∀ seg ∈ segs, seg ≠ []) (hM : segs.flatten = M) :
    update_segments (tc_sha3_init (some s0) b).2 segs =
      tc_sha3_update (tc_sha3_init (some s0) b).2 (some M) M.length ∧
    (update_segments (tc_sha3_init (some s0) b).2 segs).1 = TC_CRYPTO_SUCCESS ∧
    tc_sha3_final (some out) (update_segments (tc_sha3_init (some s0) b).2 segs).2 =
      tc_sha3_final (some out)
        (tc_sha3_update (tc_sha3_init (some s0) b).2 (some M) M.length).2 := by
  rw [tc_sha3_init_supported s0 b _hb]
  show update_segments (some (init_state b)) segs =
      tc_sha3_update (some (init_state b)) (some M) M.length ∧
    (update_segments (some (init_state b)) segs).1 = TC_CRYPTO_SUCCESS ∧
    tc_sha3_final (some out) (update_segments (some (init_state b)) segs).2 =
      tc_sha3_final (some out) (tc_sha3_update (some (init_state b)) (some M) M.length).2
  rw [update_segments_flatten, tc_sha3_update_length, hM]
  exact ⟨rfl, rfl, rfl⟩

/-- Witness of C3: the 56-byte message of `test_2` fed as 3 + 50 + 3 bytes. -/
theorem chunking_invariance_witness :
    update_segments (tc_sha3_init (some zeroed) 256).2
        [test_2_m.take 3, (test_2_m.drop 3).take 50, test_2_m.drop 53] =
      tc_sha3_update (tc_sha3_init (some zeroed) 256).2 (some test_2_m) test_2_m.length ∧
    (update_segments (tc_sha3_init (some zeroed) 256).2
        [test_2_m.take 3, (test_2_m.drop 3).take 50, test_2_m.drop 53]).1 = TC_CRYPTO_SUCCESS ∧
    tc_sha3_final (some (List.replicate 32 0))
        (update_segments (tc_sha3_init (some zeroed) 256).2
          [test_2_m.take 3, (test_2_m.drop 3).take 50, test_2_m.drop 53]).2 =
      tc_sha3_final (some (List.replicate 32 0))
        (tc_sha3_update (tc_sha3_init (some zeroed) 256).2 (some test_2_m) test_2_m.length).2 :=
  chunking_invariance zeroed 256 test_2_m
    [test_2_m.take 3, (test_2_m.drop 3).take 50, test_2_m.drop 53] (List.replicate 32 0)
    (by decide) (by decide) (by decide)

/-! ### The permutation engine against its index formulas -/

theorem ROTL64_eq_rotl (a n : Nat) (ha : a < 2 ^ 64) (hn : n < 64) :
    ROTL64 a n = Ref.rotl a n := by
  unfold ROTL64 Ref.rotl
  have h64 : (2 : Nat) ^ 64 = 2 ^ (64 - n) * 2 ^ n := by
    rw [← Nat.pow_add]; congr 1; omega
  have hlo : (a <<< n) % 2 ^ 64 = (a % 2 ^ (64 - n)) <<< n := by
    rw [Nat.shiftLeft_eq, Nat.shiftLeft_eq, h64, Nat.mul_mod_mul_right]
  have hhi : a >>> (64 - n) < 2 ^ n := by
    rw [Nat.shiftRight_eq_div_pow]
    apply Nat.div_lt_of_lt_mul
    rw [← h64]; exact ha
  rw [hlo, Nat.shiftLeft_eq, Nat.mul_comm (a % 2 ^ (64 - n)), ← Nat.mul_add_lt_is_or hhi,
    Nat.shiftRight_eq_div_pow]

theorem not64_eq_sub (a : Nat) (ha : a < 2 ^ 64) : not64 a = 2 ^ 64 - 1 - a := by
  unfold not64
  apply Nat.eq_of_testBit_eq
  intro i
  have h : 2 ^ 64 - 1 - a = 2 ^ 64 - (a + 1) := by omega
  rw [h, Nat.testBit_two_pow_sub_succ ha, Nat.testBit_xor, Nat.testBit_two_pow_sub_one]
  by_cases hi : i < 64
  · simp [hi]
  · have hai : a.testBit i = false :=
      Nat.testBit_lt_two_pow (lt_of_lt_of_le ha (Nat.pow_le_pow_right (by decide) (by omega)))
    simp [hi, hai]

theorem ROTL64_lt (a n : Nat) (ha : a < 2 ^ 64) : ROTL64 a n < 2 ^ 64 := by
  unfold ROTL64
  apply Nat.or_lt_two_pow (Nat.mod_lt _ (by decide))
  rw [Nat.shiftRight_eq_div_pow]
  exact lt_of_le_of_lt (Nat.div_le_self _ _) ha

theorem eq_lanes_of_length (S : List Nat) (h : S.length = 25) :
    ∃ a0 a1 a2 a3 a4 a5 a6 a7 a8 a9 a10 a11 a12 a13 a14 a15 a16 a17 a18 a19 a20 a21 a22 a23 a24 : Nat,
      S = [a0, a1, a2, a3, a4, a5, a6, a7, a8, a9, a10, a11, a12, a13, a14, a15, a16, a17, a18, a19, a20, a21, a22, a23, a24] := by
  obtain ⟨a0, S, rfl⟩ := List.exists_cons_of_length_eq_add_one h
  replace h : S.length = 24 := Nat.succ.inj h
  obtain ⟨a1, S, rfl⟩ := List.exists_cons_of_length_eq_add_one h
  replace h : S.length = 23 := Nat.succ.inj h
  obtain ⟨a2, S, rfl⟩ := List.exists_cons_of_length_eq_add_one h
  replace h : S.length = 22 := Nat.succ.inj h
  obtain ⟨a3, S, rfl⟩ := List.exists_cons_of_length_eq_add_one h
  replace h : S.length = 21 := Nat.succ.inj h
  obtain ⟨a4, S, rfl⟩ := List.exists_cons_of_length_eq_add_one h
  replace h : S.length = 20 := Nat.succ.inj h
  obtain ⟨a5, S, rfl⟩ := List.exists_cons_of_length_eq_add_one h
  replace h : S.length = 19 := Nat.succ.inj h
  obtain ⟨a6, S, rfl⟩ := List.exists_cons_of_length_eq_add_one h
  replace h : S.length = 18 := Nat.succ.inj h
  obtain ⟨a7, S, rfl⟩ := List.exists_cons_of_length_eq_add_one h
  replace h : S.length = 17 := Nat.succ.inj h
  obtain ⟨a8, S, rfl⟩ := List.exists_cons_of_length_eq_add_one h
  replace h : S.length = 16 := Nat.succ.inj h
  obtain ⟨a9, S, rfl⟩ := List.exists_cons_of_length_eq_add_one h
  replace h : S.length = 15 := Nat.succ.inj h
  obtain ⟨a10, S, rfl⟩ := List.exists_cons_of_length_eq_add_one h
  replace h : S.length = 14 := Nat.succ.inj h
  obtain ⟨a11, S, rfl⟩ := List.exists_cons_of_length_eq_add_one h
  replace h : S.length = 13 := Nat.succ.inj h
  obtain ⟨a12, S, rfl⟩ := List.exists_cons_of_length_eq_add_one h
  replace h : S.length = 12 := Nat.succ.inj h
  obtain ⟨a13, S, rfl⟩ := List.exists_cons_of_length_eq_add_one h
  replace h : S.length = 11 := Nat.succ.inj h
  obtain ⟨a14, S, rfl⟩ := List.exists_cons_of_length_eq_add_one h
  replace h : S.length = 10 := Nat.succ.inj h
  obtain ⟨a15, S, rfl⟩ := List.exists_cons_of_length_eq_add_one h
  replace h : S.length = 9 := Nat.succ.inj h
  obtain ⟨a16, S, rfl⟩ := List.exists_cons_of_length_eq_add_one h
  replace h : S.length = 8 := Nat.succ.inj h
  obtain ⟨a17, S, rfl⟩ := List.exists_cons_of_length_eq_add_one h
  replace h : S.length = 7 := Nat.succ.inj h
  obtain ⟨a18, S, rfl⟩ := List.exists_cons_of_length_eq_add_one h
  replace h : S.length = 6 := Nat.succ.inj h
  obtain ⟨a19, S, rfl⟩ := List.exists_cons_of_length_eq_add_one h
  replace h : S.length = 5 := Nat.succ.inj h
  obtain ⟨a20, S, rfl⟩ := List.exists_cons_of_length_eq_add_one h
  replace h : S.length = 4 := Nat.succ.inj h
  obtain ⟨a21, S, rfl⟩ := List.exists_cons_of_length_eq_add_one h
  replace h : S.length = 3 := Nat.succ.inj h
  obtain ⟨a22, S, rfl⟩ := List.exists_cons_of_length_eq_add_one h
  replace h : S.length = 2 := Nat.succ.inj h
  obtain ⟨a23, S, rfl⟩ := List.exists_cons_of_length_eq_add_one h
  replace h : S.length = 1 := Nat.succ.inj h
  obtain ⟨a24, S, rfl⟩ := List.exists_cons_of_length_eq_add_one h
  replace h : S.length = 0 := Nat.succ.inj h
  rw [List.length_eq_zero] at h
  subst h
  exact ⟨a0, a1, a2, a3, a4, a5, a6, a7, a8, a9, a10, a11, a12, a13, a14, a15, a16, a17, a18, a19, a20, a21, a22, a23, a24, rfl⟩

theorem range_25 : List.range 25 = [0, 1, 2, 3, 4, 5, 6, 7, 8, 9, 10, 11, 12, 13, 14, 15, 16,
    17, 18, 19, 20, 21, 22, 23, 24] := by decide

theorem pi_eq_ref (S : List Nat) (h : S.length = 25) : pi S = Ref.pi S := by
  obtain ⟨a0, a1, a2, a3, a4, a5, a6, a7, a8, a9, a10, a11, a12, a13, a14, a15, a16, a17,
    a18, a19, a20, a21, a22, a23, a24, rfl⟩ := eq_lanes_of_length S h
  simp only [pi, Ref.pi, Ref.of_lanes, Ref.lane, range_25, List.map_cons, List.map_nil,
    List.getD_cons_zero, List.getD_cons_succ, List.set_cons_zero, List.set_cons_succ,
    Nat.reduceMod, Nat.reduceDiv, Nat.reduceAdd, Nat.reduceMul]

theorem lanes64_bounds (S : List Nat) (h : Lanes64 S) :
    ∃ a0 a1 a2 a3 a4 a5 a6 a7 a8 a9 a10 a11 a12 a13 a14 a15 a16 a17 a18 a19 a20 a21 a22 a23 a24 : Nat,
      S = [a0, a1, a2, a3, a4, a5, a6, a7, a8, a9, a10, a11, a12, a13, a14, a15, a16, a17, a18, a19, a20, a21, a22, a23, a24] ∧
      a0 < 2 ^ 64 ∧ a1 < 2 ^ 64 ∧ a2 < 2 ^ 64 ∧ a3 < 2 ^ 64 ∧ a4 < 2 ^ 64 ∧ a5 < 2 ^ 64 ∧ a6 < 2 ^ 64 ∧ a7 < 2 ^ 64 ∧ a8 < 2 ^ 64 ∧ a9 < 2 ^ 64 ∧ a10 < 2 ^ 64 ∧ a11 < 2 ^ 64 ∧ a12 < 2 ^ 64 ∧ a13 < 2 ^ 64 ∧ a14 < 2 ^ 64 ∧ a15 < 2 ^ 64 ∧ a16 < 2 ^ 64 ∧ a17 < 2 ^ 64 ∧ a18 < 2 ^ 64 ∧ a19 < 2 ^ 64 ∧ a20 < 2 ^ 64 ∧ a21 < 2 ^ 64 ∧ a22 < 2 ^ 64 ∧ a23 < 2 ^ 64 ∧ a24 < 2 ^ 64 := by
  obtain ⟨a0, a1, a2, a3, a4, a5, a6, a7, a8, a9, a10, a11, a12, a13, a14, a15, a16, a17,
    a18, a19, a20, a21, a22, a23, a24, rfl⟩ := eq_lanes_of_length S h.1
  have hb := h.2
  simp only [List.forall_mem_cons] at hb
  obtain ⟨h0, h1, h2, h3, h4, h5, h6, h7, h8, h9, h10, h11, h12, h13, h14, h15, h16, h17,
    h18, h19, h20, h21, h22, h23, h24, -⟩ := hb
  exact ⟨a0, a1, a2, a3, a4, a5, a6, a7, a8, a9, a10, a11, a12, a13, a14, a15, a16, a17,
    a18, a19, a20, a21, a22, a23, a24, rfl,
    h0, h1, h2, h3, h4, h5, h6, h7, h8, h9, h10, h11, h12, h13, h14, h15, h16, h17,
    h18, h19, h20, h21, h22, h23, h24⟩

theorem chi_eq_ref (S : List Nat) (h : Lanes64 S) : chi S = Ref.chi S := by
  obtain ⟨a0, a1, a2, a3, a4, a5, a6, a7, a8, a9, a10, a11, a12, a13, a14, a15, a16, a17,
    a18, a19, a20, a21, a22, a23, a24, rfl,
    h0, h1, h2, h3, h4, h5, h6, h7, h8, h9, h10, h11, h12, h13, h14, h15, h16, h17,
    h18, h19, h20, h21, h22, h23, h24⟩ := lanes64_bounds S h
  simp only [chi, Ref.chi, Ref.of_lanes, Ref.lane, range_25, List.map_cons, List.map_nil,
    List.getD_cons_zero, List.getD_cons_succ, List.set_cons_zero, List.set_cons_succ,
    Nat.reduceMod, Nat.reduceDiv, Nat.reduceAdd, Nat.reduceMul]
  rw [not64_eq_sub a0 h0, not64_eq_sub a1 h1, not64_eq_sub a2 h2, not64_eq_sub a3 h3,
    not64_eq_sub a4 h4, not64_eq_sub a5 h5, not64_eq_sub a6 h6, not64_eq_sub a7 h7,
    not64_eq_sub a8 h8, not64_eq_sub a9 h9, not64_eq_sub a10 h10, not64_eq_sub a11 h11,
    not64_eq_sub a12 h12, not64_eq_sub a13 h13, not64_eq_sub a14 h14, not64_eq_sub a15 h15,
    not64_eq_sub a16 h16, not64_eq_sub a17 h17, not64_eq_sub a18 h18, not64_eq_sub a19 h19,
    not64_eq_sub a20 h20, not64_eq_sub a21 h21, not64_eq_sub a22 h22, not64_eq_sub a23 h23,
    not64_eq_sub a24 h24]

theorem xor5_lt (a b c d e : Nat) (ha : a < 2 ^ 64) (hb : b < 2 ^ 64) (hc : c < 2 ^ 64)
    (hd : d < 2 ^ 64) (he : e < 2 ^ 64) : a ^^^ b ^^^ c ^^^ d ^^^ e < 2 ^ 64 :=
  Nat.xor_lt_two_pow (Nat.xor_lt_two_pow (Nat.xor_lt_two_pow (Nat.xor_lt_two_pow ha hb) hc) hd) he

theorem theta_eq_ref (S : List Nat) (h : Lanes64 S) : theta S = Ref.theta S := by
  obtain ⟨a0, a1, a2, a3, a4, a5, a6, a7, a8, a9, a10, a11, a12, a13, a14, a15, a16, a17,
    a18, a19, a20, a21, a22, a23, a24, rfl,
    h0, h1, h2, h3, h4, h5, h6, h7, h8, h9, h10, h11, h12, h13, h14, h15, h16, h17,
    h18, h19, h20, h21, h22, h23, h24⟩ := lanes64_bounds S h
  simp only [theta, Ref.theta, Ref.D, Ref.C, Ref.of_lanes, Ref.lane, range_25, List.map_cons,
    List.map_nil, List.getD_cons_zero, List.getD_cons_succ, List.set_cons_zero,
    List.set_cons_succ, Nat.reduceMod, Nat.reduceDiv, Nat.reduceAdd, Nat.reduceMul]
  rw [ROTL64_eq_rotl _ 1 (xor5_lt a0 a5 a10 a15 a20 h0 h5 h10 h15 h20) (by decide),
    ROTL64_eq_rotl _ 1 (xor5_lt a1 a6 a11 a16 a21 h1 h6 h11 h16 h21) (by decide),
    ROTL64_eq_rotl _ 1 (xor5_lt a2 a7 a12 a17 a22 h2 h7 h12 h17 h22) (by decide),
    ROTL64_eq_rotl _ 1 (xor5_lt a3 a8 a13 a18 a23 h3 h8 h13 h18 h23) (by decide),
    ROTL64_eq_rotl _ 1 (xor5_lt a4 a9 a14 a19 a24 h4 h9 h14 h19 h24) (by decide)]

theorem rho_offset_values :
    Ref.rho_offset 0 0 = 0 ∧
    Ref.rho_offset 1 0 = 1 ∧
    Ref.rho_offset 2 0 = 62 ∧
    Ref.rho_offset 3 0 = 28 ∧
    Ref.rho_offset 4 0 = 27 ∧
    Ref.rho_offset 0 1 = 36 ∧
    Ref.rho_offset 1 1 = 44 ∧
    Ref.rho_offset 2 1 = 6 ∧
    Ref.rho_offset 3 1 = 55 ∧
    Ref.rho_offset 4 1 = 20 ∧
    Ref.rho_offset 0 2 = 3 ∧
    Ref.rho_offset 1 2 = 10 ∧
    Ref.rho_offset 2 2 = 43 ∧
    Ref.rho_offset 3 2 = 25 ∧
    Ref.rho_offset 4 2 = 39 ∧
    Ref.rho_offset 0 3 = 41 ∧
    Ref.rho_offset 1 3 = 45 ∧
    Ref.rho_offset 2 3 = 15 ∧
    Ref.rho_offset 3 3 = 21 ∧
    Ref.rho_offset 4 3 = 8 ∧
    Ref.rho_offset 0 4 = 18 ∧
    Ref.rho_offset 1 4 = 2 ∧
    Ref.rho_offset 2 4 = 61 ∧
    Ref.rho_offset 3 4 = 56 ∧
    Ref.rho_offset 4 4 = 14 := by
  decide

theorem rho_eq_ref (S : List Nat) (h : Lanes64 S) : rho S = Ref.rho S := by
  obtain ⟨a0, a1, a2, a3, a4, a5, a6, a7, a8, a9, a10, a11, a12, a13, a14, a15, a16, a17,
    a18, a19, a20, a21, a22, a23, a24, rfl,
    h0, h1, h2, h3, h4, h5, h6, h7, h8, h9, h10, h11, h12, h13, h14, h15, h16, h17,
    h18, h19, h20, h21, h22, h23, h24⟩ := lanes64_bounds S h
  obtain ⟨r0, r1, r2, r3, r4, r5, r6, r7, r8, r9, r10, r11, r12, r13, r14, r15, r16, r17,
    r18, r19, r20, r21, r22, r23, r24⟩ := rho_offset_values
  simp only [rho, Ref.rho, TC_SHA3_PERMUTATION_WIDTH, rho_offsets, Ref.of_lanes, Ref.lane,
    range_25, List.foldl_cons, List.foldl_nil, List.cons_append, List.nil_append,
    List.map_cons, List.map_nil, List.getD_cons_zero, List.getD_cons_succ,
    List.set_cons_zero, List.set_cons_succ, Nat.reduceMod, Nat.reduceDiv, Nat.reduceAdd,
    Nat.reduceMul, r0, r1, r2, r3, r4, r5, r6, r7, r8, r9, r10, r11, r12, r13, r14, r15, r16, r17,
    r18, r19, r20, r21, r22, r23, r24]
  rw [ROTL64_eq_rotl a0 0 h0 (by decide),
    ROTL64_eq_rotl a1 1 h1 (by decide),
    ROTL64_eq_rotl a2 62 h2 (by decide),
    ROTL64_eq_rotl a3 28 h3 (by decide),
    ROTL64_eq_rotl a4 27 h4 (by decide),
    ROTL64_eq_rotl a5 36 h5 (by decide),
    ROTL64_eq_rotl a6 44 h6 (by decide),
    ROTL64_eq_rotl a7 6 h7 (by decide),
    ROTL64_eq_rotl a8 55 h8 (by decide),
    ROTL64_eq_rotl a9 20 h9 (by decide),
    ROTL64_eq_rotl a10 3 h10 (by decide),
    ROTL64_eq_rotl a11 10 h11 (by decide),
    ROTL64_eq_rotl a12 43 h12 (by decide),
    ROTL64_eq_rotl a13 25 h13 (by decide),
    ROTL64_eq_rotl a14 39 h14 (by decide),
    ROTL64_eq_rotl a15 41 h15 (by decide),
    ROTL64_eq_rotl a16 45 h16 (by decide),
    ROTL64_eq_rotl a17 15 h17 (by decide),
    ROTL64_eq_rotl a18 21 h18 (by decide),
    ROTL64_eq_rotl a19 8 h19 (by decide),
    ROTL64_eq_rotl a20 18 h20 (by decide),
    ROTL64_eq_rotl a21 2 h21 (by decide),
    ROTL64_eq_rotl a22 61 h22 (by decide),
    ROTL64_eq_rotl a23 56 h23 (by decide),
    ROTL64_eq_rotl a24 14 h24 (by decide)]
theorem RC_table : (List.range 24).map Ref.RC = iotas := by decide!

theorem iotas_lt : ∀ c ∈ iotas, c < 2 ^ 64 := by decide

theorem RC_eq_iotas (i : Nat) (hi : i < 24) : Ref.RC i = iotas.getD i 0 := by
  rw [← RC_table, List.getD_eq_getElem?_getD, List.getElem?_map,
    List.getElem?_range hi]
  rfl

theorem RC_lt (i : Nat) (hi : i < 24) : Ref.RC i < 2 ^ 64 := by
  rw [RC_eq_iotas i hi]
  have hlen : i < iotas.length := hi
  rw [List.getD_eq_getElem _ _ hlen]
  exact iotas_lt _ (List.getElem_mem _)

theorem getD_lt (l : List Nat) (n i : Nat) (hn : 0 < n) (h : ∀ a ∈ l, a < n) :
    l.getD i 0 < n := by
  by_cases hi : i < l.length
  · rw [List.getD_eq_getElem _ _ hi]
    exact h _ (List.getElem_mem _)
  · rw [List.getD_eq_default _ _ (by omega)]
    exact hn

theorem lane_lt (A : List Nat) (x y : Nat) (h : Lanes64 A) : Ref.lane A x y < 2 ^ 64 :=
  getD_lt A _ _ (by decide) h.2

theorem of_lanes_lanes64 (f : Nat → Nat → Nat) (h : ∀ x y, f x y < 2 ^ 64) :
    Lanes64 (Ref.of_lanes f) := by
  refine ⟨by simp [Ref.of_lanes], ?_⟩
  intro a ha
  simp only [Ref.of_lanes, List.mem_map] at ha
  obtain ⟨i, -, rfl⟩ := ha
  exact h _ _

theorem rotl_lt (a n : Nat) (ha : a < 2 ^ 64) (hn : n < 64) : Ref.rotl a n < 2 ^ 64 := by
  rw [← ROTL64_eq_rotl a n ha hn]
  exact ROTL64_lt a n ha

theorem rho_offset_lt (x y : Nat) : Ref.rho_offset x y < 64 := by
  unfold Ref.rho_offset
  split
  · exact Nat.mod_lt _ (by decide)
  · decide

theorem C_lt (A : List Nat) (x : Nat) (h : Lanes64 A) : Ref.C A x < 2 ^ 64 :=
  xor5_lt _ _ _ _ _ (lane_lt A _ _ h) (lane_lt A _ _ h) (lane_lt A _ _ h) (lane_lt A _ _ h)
    (lane_lt A _ _ h)

theorem theta_lanes64 (A : List Nat) (h : Lanes64 A) : Lanes64 (Ref.theta A) :=
  of_lanes_lanes64 _ fun _ _ =>
    Nat.xor_lt_two_pow (lane_lt A _ _ h)
      (Nat.xor_lt_two_pow (C_lt A _ h) (rotl_lt _ 1 (C_lt A _ h) (by decide)))

theorem rho_lanes64 (A : List Nat) (h : Lanes64 A) : Lanes64 (Ref.rho A) :=
  of_lanes_lanes64 _ fun _ _ => rotl_lt _ _ (lane_lt A _ _ h) (rho_offset_lt _ _)

theorem pi_lanes64 (A : List Nat) (h : Lanes64 A) : Lanes64 (Ref.pi A) :=
  of_lanes_lanes64 _ fun _ _ => lane_lt A _ _ h

theorem chi_lanes64 (A : List Nat) (h : Lanes64 A) : Lanes64 (Ref.chi A) :=
  of_lanes_lanes64 _ fun _ _ =>
    Nat.xor_lt_two_pow (lane_lt A _ _ h) (Nat.and_lt_two_pow _ (lane_lt A _ _ h))

theorem iota_lanes64 (A : List Nat) (i : Nat) (hi : i < 24) (h : Lanes64 A) :
    Lanes64 (Ref.iota A i) :=
  of_lanes_lanes64 _ fun x y => by
    show (if x = 0 ∧ y = 0 then Ref.lane A 0 0 ^^^ Ref.RC i else Ref.lane A x y) < 2 ^ 64
    split
    · exact Nat.xor_lt_two_pow (lane_lt A _ _ h) (RC_lt i hi)
    · exact lane_lt A _ _ h

theorem iota_eq_ref (S : List Nat) (i : Nat) (h : S.length = 25) :
    S.set 0 (S.getD 0 0 ^^^ Ref.RC i) = Ref.iota S i := by
  obtain ⟨a0, a1, a2, a3, a4, a5, a6, a7, a8, a9, a10, a11, a12, a13, a14, a15, a16, a17,
    a18, a19, a20, a21, a22, a23, a24, rfl⟩ := eq_lanes_of_length S h
  simp [Ref.iota, Ref.of_lanes, Ref.lane, range_25]

theorem round_body_eq_ref (S : List Nat) (i : Nat) (hi : i < 24) (h : Lanes64 S) :
    round_body S i = Ref.round S i := by
  unfold round_body Ref.round
  have h1 := theta_lanes64 S h
  have h2 := rho_lanes64 _ h1
  have h3 := pi_lanes64 _ h2
  have h4 := chi_lanes64 _ h3
  simp only []
  rw [theta_eq_ref S h, rho_eq_ref _ h1, pi_eq_ref _ h2.1, chi_eq_ref _ h3,
    ← RC_eq_iotas i hi, iota_eq_ref _ i h4.1]

theorem round_lanes64 (A : List Nat) (i : Nat) (hi : i < 24) (h : Lanes64 A) :
    Lanes64 (Ref.round A i) :=
  iota_lanes64 _ i hi (chi_lanes64 _ (pi_lanes64 _ (rho_lanes64 _ (theta_lanes64 A h))))

theorem foldl_rounds (l : List Nat) (hl : ∀ i ∈ l, i < 24) (S : List Nat) (h : Lanes64 S) :
    l.foldl round_body S = l.foldl Ref.round S ∧ Lanes64 (l.foldl Ref.round S) := by
  induction l generalizing S with
  | nil =>
    rw [List.foldl_nil, List.foldl_nil]
    exact ⟨Eq.refl S, h⟩
  | cons i l ih =>
    have hi : i < 24 := hl i (List.mem_cons_self _ _)
    rw [List.foldl_cons, List.foldl_cons, round_body_eq_ref S i hi h]
    exact ih (fun j hj => hl j (List.mem_cons_of_mem _ hj)) _ (round_lanes64 S i hi h)

theorem keccak_rounds_eq_ref (S : List Nat) (h : Lanes64 S) :
    keccak_rounds S = Ref.keccak_f S :=
  (foldl_rounds (List.range 24) (fun _ hi => List.mem_range.mp hi) S h).1

theorem keccak_f_lanes64 (A : List Nat) (h : Lanes64 A) : Lanes64 (Ref.keccak_f A) :=
  (foldl_rounds (List.range 24) (fun _ hi => List.mem_range.mp hi) A h).2
theorem getElem?_map_range (f : Nat → Nat) (n k : Nat) :
    ((List.range n).map f)[k]? = if k < n then some (f k) else none := by
  by_cases hk : k < n
  · simp [List.getElem?_range hk, hk]
  · have h : ((List.range n).map f).length ≤ k := by simp; omega
    simp [hk, List.getElem?_eq_none h]

theorem map_getD_range (l : List Nat) : (List.range l.length).map (fun i => l.getD i 0) = l := by
  apply List.ext_getElem?
  intro k
  rw [getElem?_map_range]
  by_cases hk : k < l.length
  · simp [hk, List.getElem?_eq_getElem hk]
  · simp [hk, List.getElem?_eq_none (Nat.le_of_not_lt hk)]

theorem foldl_set_range (g : Nat → Nat → Nat) (n : Nat) (S : List Nat) :
    (List.range n).foldl (fun S i => S.set i (g i (S.getD i 0))) S =
      (List.range S.length).map fun i => if i < n then g i (S.getD i 0) else S.getD i 0 := by
  induction n with
  | zero =>
    simp only [List.range_zero, List.foldl_nil, Nat.not_lt_zero, if_false]
    exact (map_getD_range S).symm
  | succ n ih =>
    rw [List.range_succ, List.foldl_append, ih, List.foldl_cons, List.foldl_nil]
    apply List.ext_getElem?
    intro k
    simp only [List.getElem?_set, getElem?_map_range, List.length_map, List.length_range,
      List.getD_eq_getElem?_getD]
    by_cases hk : k < S.length
    · by_cases hnk : n = k
      · subst hnk
        simp [hk]
      · have h1 : (k < n + 1) ↔ (k < n) := by omega
        simp [hk, hnk, h1]
    · by_cases hnk : n = k
      · subst hnk
        simp [hk]
      · simp [hk, hnk]
theorem foldl_or_shift (f : Nat → Nat) (hf : ∀ j, f j < 256) (n : Nat) :
    (List.range n).foldl (fun acc j => acc ||| (f j <<< (8 * j))) 0 =
      ((List.range n).map fun j => f j * 256 ^ j).sum ∧
    ((List.range n).map fun j => f j * 256 ^ j).sum < 256 ^ n := by
  induction n with
  | zero => exact ⟨rfl, Nat.one_pos⟩
  | succ n ih =>
    obtain ⟨ih1, ih2⟩ := ih
    have h256 : (256 : Nat) ^ n = 2 ^ (8 * n) := by
      rw [Nat.pow_mul]
    rw [List.range_succ, List.foldl_append, ih1, List.map_append, List.sum_append,
      List.foldl_cons, List.foldl_nil, List.map_cons, List.map_nil, List.sum_cons,
      List.sum_nil, Nat.add_zero]
    constructor
    · rw [Nat.shiftLeft_eq, Nat.lor_comm, Nat.mul_comm (f n), ← h256]
      rw [h256] at ih2 ⊢
      rw [← Nat.mul_add_lt_is_or ih2, Nat.add_comm, Nat.mul_comm]
    · have hfn : f n ≤ 255 := Nat.le_of_lt_succ (hf n)
      have : f n * 256 ^ n ≤ 255 * 256 ^ n := Nat.mul_le_mul_right _ hfn
      rw [Nat.pow_succ]
      omega

theorem leftover_lane_eq_ref (l : List Nat) (i r : Nat) (hb : ∀ a ∈ l, a < 256)
    (hi : 8 * i + 8 ≤ r) :
    leftover_lane l i = Ref.lane_of_bytes (((l.take r).drop (8 * i)).take 8) := by
  unfold leftover_lane Ref.lane_of_bytes
  rw [(foldl_or_shift (fun j => l.getD (8 * i + j) 0)
    (fun j => getD_lt l 256 _ (by decide) hb) 8).1]
  congr 1
  apply List.map_congr_left
  intro j hj
  have hj8 : j < 8 := List.mem_range.mp hj
  have hjr : 8 * i + j < r := by omega
  simp only [List.getD_eq_getElem?_getD, List.getElem?_take, List.getElem?_drop, hj8, hjr,
    if_true]

theorem lane_of_bytes_lt (bs : List Nat) (hb : ∀ a ∈ bs, a < 256) :
    Ref.lane_of_bytes bs < 2 ^ 64 :=
  (foldl_or_shift (fun j => bs.getD j 0) (fun j => getD_lt bs 256 _ (by decide) hb) 8).2

theorem xor_block_eq_ref (S l : List Nat) (r : Nat) (hS : S.length = 25)
    (hb : ∀ a ∈ l, a < 256) :
    xor_block S l r = Ref.xor_block r S (l.take r) := by
  unfold xor_block Ref.xor_block
  rw [foldl_set_range (fun i a => a ^^^ leftover_lane l i), hS]
  apply List.map_congr_left
  intro i _
  by_cases hi : i < r / 8
  · have h8 : 8 * i + 8 ≤ r := by
      have := Nat.mul_div_le r 8
      omega
    simp only [hi, if_true, leftover_lane_eq_ref l i r hb h8]
  · simp only [hi, if_false]

theorem xor_block_lanes64 (r : Nat) (A block : List Nat) (hA : Lanes64 A)
    (hb : ∀ a ∈ block, a < 256) : Lanes64 (Ref.xor_block r A block) := by
  refine ⟨by simp [Ref.xor_block], ?_⟩
  intro a ha
  simp only [Ref.xor_block, List.mem_map] at ha
  obtain ⟨i, -, rfl⟩ := ha
  have hAi : A.getD i 0 < 2 ^ 64 := getD_lt A _ _ (by decide) hA.2
  split
  · apply Nat.xor_lt_two_pow hAi
    apply lane_of_bytes_lt
    intro b hb'
    exact hb b (List.mem_of_mem_drop (List.mem_of_mem_take hb'))
  · exact hAi

theorem absorb_block_lanes64 (r : Nat) (A block : List Nat) (hA : Lanes64 A)
    (hb : ∀ a ∈ block, a < 256) : Lanes64 (Ref.absorb_block r A block) :=
  keccak_f_lanes64 _ (xor_block_lanes64 r A block hA hb)

theorem absorb_eq_ref (s : tc_sha3_state_struct) (hS : Lanes64 s.S)
    (hb : ∀ a ∈ s.leftover, a < 256) :
    absorb s = { s with S := Ref.absorb_block s.block_size s.S (s.leftover.take s.block_size) } := by
  unfold absorb Ref.absorb_block
  rw [xor_block_eq_ref s.S s.leftover s.block_size hS.1 hb,
    keccak_rounds_eq_ref _ (xor_block_lanes64 _ _ _ hS
      (fun a ha => hb a (List.mem_of_mem_take ha)))]
theorem take_set_succ (l : List Nat) (n b : Nat) (hn : n < l.length) :
    (l.set n b).take (n + 1) = l.take n ++ [b] := by
  apply List.ext_getElem?
  intro k
  simp only [List.getElem?_take, List.getElem?_set, List.getElem?_append, List.length_take,
    Nat.min_eq_left (Nat.le_of_lt hn)]
  by_cases hk : k < n
  · have h1 : n ≠ k := by omega
    have h2 : k < n + 1 := by omega
    simp [hk, h1, h2]
  · by_cases hkn : k = n
    · subst hkn
      simp [hn]
    · have h1 : n ≠ k := fun h => hkn h.symm
      have h2 : ¬ k < n + 1 := by omega
      have h3 : k - n ≠ 0 := by omega
      simp [hk, h1, h2, h3, List.getElem?_cons]

theorem update_byte_absorbing (r : Nat) (A pending : List Nat) (s : tc_sha3_state_struct)
    (b : Nat) (hr : r ≤ 192) (h : Absorbing r A pending s) (hb : b < 256) :
    (pending.length + 1 < r → Absorbing r A (pending ++ [b]) (update_byte s b)) ∧
    (pending.length + 1 = r →
      Absorbing r (Ref.absorb_block r A (pending ++ [b])) [] (update_byte s b)) := by
  obtain ⟨h1, h2, h3, h4, h5, h6, h7, h8⟩ := h
  have hoff : (s.leftover_offset + 1) % 2 ^ 64 = pending.length + 1 := by
    rw [h6]
    apply Nat.mod_eq_of_lt
    have : (192 : Nat) < 2 ^ 64 := by decide
    omega
  have hlt : pending.length < s.leftover.length := by omega
  have hbytes : ∀ a ∈ s.leftover.set pending.length (b % 256), a < 256 := by
    intro a ha
    rcases List.mem_or_eq_of_mem_set ha with ha | ha
    · exact h5 a ha
    · rw [ha]; exact Nat.mod_lt _ (by decide)
  have htake : (s.leftover.set pending.length (b % 256)).take (pending.length + 1) =
      pending ++ [b] := by
    rw [take_set_succ _ _ _ hlt, h8, Nat.mod_eq_of_lt hb]
  constructor
  · intro hlt'
    have hcond : ¬ ((s.leftover_offset + 1) % 2 ^ 64 ≥ s.block_size) := by
      rw [hoff, h1]; omega
    simp only [update_byte, hcond, if_false]
    refine ⟨h1, h2, h3, ?_, ?_, ?_, ?_, ?_⟩
    · simp only [List.length_set]; exact h4
    · rw [h6]; exact hbytes
    · simp only [hoff, List.length_append, List.length_singleton]
    · simp only [List.length_append, List.length_singleton]; exact hlt'
    · simp only [List.length_append, List.length_singleton, h6]; exact htake
  · intro heq
    have hcond : (s.leftover_offset + 1) % 2 ^ 64 ≥ s.block_size := by
      rw [hoff, h1]; omega
    simp only [update_byte, hcond, if_true]
    have hS : Lanes64 s.S := h2 ▸ h3
    have habs := absorb_eq_ref
      { s with leftover := s.leftover.set s.leftover_offset (b % 256)
               leftover_offset := (s.leftover_offset + 1) % 2 ^ 64 } hS
      (by rw [h6]; exact hbytes)
    rw [habs]
    simp only []
    have hblock : (s.leftover.set s.leftover_offset (b % 256)).take s.block_size =
        pending ++ [b] := by
      rw [h1, ← heq, h6]; exact htake
    rw [hblock, h1, h2]
    refine ⟨rfl, rfl, ?_, ?_, ?_, rfl, ?_, rfl⟩
    · apply absorb_block_lanes64 _ _ _ h3
      intro a ha
      rcases List.mem_append.mp ha with ha | ha
      · rw [← h8] at ha; exact h5 a (List.mem_of_mem_take ha)
      · rw [List.mem_singleton.mp ha]; exact hb
    · simp only [List.length_set]; exact h4
    · rw [h6]; exact hbytes
    · simp only [List.length_nil]; omega
theorem blocks_of_lt (r : Nat) (P : List Nat) (h : P.length < r) : Ref.blocks r P = [] := by
  unfold Ref.blocks
  rw [Nat.div_eq_of_lt h]
  rfl

theorem blocks_append (r : Nat) (B P : List Nat) (hr : 0 < r) (hB : B.length = r) :
    Ref.blocks r (B ++ P) = B :: Ref.blocks r P := by
  unfold Ref.blocks
  have hlen : (B ++ P).length / r = P.length / r + 1 := by
    rw [List.length_append, hB, Nat.add_comm, Nat.add_div_right _ hr]
  rw [hlen, List.range_succ_eq_map, List.map_cons, List.map_map]
  congr 1
  · rw [Nat.zero_mul, List.drop_zero, List.take_left' hB]
  · apply List.map_congr_left
    intro k _
    show List.take r (List.drop ((k + 1) * r) (B ++ P)) = List.take r (List.drop (k * r) P)
    have h1 : (k + 1) * r = B.length + k * r := by rw [hB, Nat.succ_mul, Nat.add_comm]
    rw [h1, List.drop_append]

theorem drop_full_blocks (r : Nat) (B P : List Nat) (hr : 0 < r) (hB : B.length = r) :
    (B ++ P).drop ((B ++ P).length / r * r) = P.drop (P.length / r * r) := by
  have hlen : (B ++ P).length / r = P.length / r + 1 := by
    rw [List.length_append, hB, Nat.add_comm, Nat.add_div_right _ hr]
  have h1 : (P.length / r + 1) * r = B.length + P.length / r * r := by
    rw [hB, Nat.succ_mul, Nat.add_comm]
  rw [hlen, h1, List.drop_append]

theorem update_fold_absorbing (r : Nat) (hr : r ≤ 192) (M : List Nat) :
    ∀ (A pending : List Nat) (s : tc_sha3_state_struct), Absorbing r A pending s →
      (∀ b ∈ M, b < 256) →
      Absorbing r (Ref.absorb_blocks r A (Ref.blocks r (pending ++ M)))
        ((pending ++ M).drop ((pending ++ M).length / r * r)) (M.foldl update_byte s) := by
  induction M with
  | nil =>
    intro A pending s h _
    have hlt := h.pending_lt
    rw [List.append_nil, blocks_of_lt r pending hlt, Nat.div_eq_of_lt hlt, Nat.zero_mul,
      List.drop_zero]
    exact h
  | cons b M ih =>
    intro A pending s h hM
    have hb : b < 256 := hM b (List.mem_cons_self _ _)
    have hM' : ∀ x ∈ M, x < 256 := fun x hx => hM x (List.mem_cons_of_mem _ hx)
    have hstep := update_byte_absorbing r A pending s b hr h hb
    have hlt := h.pending_lt
    have happ : pending ++ b :: M = (pending ++ [b]) ++ M := by
      rw [List.append_assoc, List.singleton_append]
    rw [List.foldl_cons, happ]
    by_cases hfull : pending.length + 1 = r
    · have hlen : (pending ++ [b]).length = r := by
        rw [List.length_append, List.length_singleton]; exact hfull
      have hr0 : 0 < r := by omega
      have h' := ih _ _ _ (hstep.2 hfull) hM'
      rw [List.nil_append] at h'
      rw [blocks_append r _ M hr0 hlen, drop_full_blocks r _ M hr0 hlen]
      exact h'
    · exact ih _ _ _ (hstep.1 (by omega)) hM'
theorem pad_leftover_eq (r : Nat) (A pending : List Nat) (s : tc_sha3_state_struct)
    (hr : r ≤ 192) (h : Absorbing r A pending s) :
    pad_leftover s =
      ((pending ++ List.replicate (192 - pending.length) 0).set pending.length 0x06).set (r - 1)
        (if r - pending.length = 1 then 0x86 else 0x80) := by
  obtain ⟨h1, h2, h3, h4, h5, h6, h7, h8⟩ := h
  have hfill : (sizeof_leftover + (2 ^ 64 - s.leftover_offset % 2 ^ 64)) % 2 ^ 64 =
      192 - pending.length := by
    rw [h6]
    show (192 + (2 ^ 64 - pending.length % 2 ^ 64)) % 2 ^ 64 = 192 - pending.length
    omega
  have hlo0 : _set s.leftover s.leftover_offset 0x00
      ((sizeof_leftover + (2 ^ 64 - s.leftover_offset % 2 ^ 64)) % 2 ^ 64) =
      pending ++ List.replicate (192 - pending.length) 0 := by
    rw [hfill]
    unfold _set
    have hd : s.leftover.drop (pending.length + (192 - pending.length)) = [] := by
      apply List.drop_eq_nil_of_le
      rw [h4]
      omega
    rw [h6, h8, hd, List.append_nil]
  have hlast : (s.block_size + (2 ^ 64 - 1)) % 2 ^ 64 = r - 1 := by
    rw [h1]; omega
  have hg0 : (pending ++ List.replicate (192 - pending.length) 0).getD pending.length 0 = 0 := by
    rw [List.getD_append_right _ _ _ _ (Nat.le_refl _), Nat.sub_self,
      List.getD_eq_getElem?_getD, List.getElem?_replicate]
    split <;> rfl
  have hv : ((pending ++ List.replicate (192 - pending.length) 0).set pending.length 0x06).getD
      (r - 1) 0 ||| 0x80 = if r - pending.length = 1 then 0x86 else 0x80 := by
    by_cases hq : r - pending.length = 1
    · have hidx : r - 1 = pending.length := by omega
      have hlen : pending.length <
          (pending ++ List.replicate (192 - pending.length) 0).length := by
        rw [List.length_append, List.length_replicate]; omega
      rw [hidx, List.getD_eq_getElem?_getD, List.getElem?_set_self hlen, if_pos hq]
      rfl
    · have hne : pending.length ≠ r - 1 := by omega
      have hlt : r - 1 - pending.length < 192 - pending.length := by omega
      rw [List.getD_eq_getElem?_getD, List.getElem?_set_ne hne,
        List.getElem?_append_right (by omega), List.getElem?_replicate, if_pos hlt, if_neg hq]
      rfl
  rw [h6] at hlo0
  unfold pad_leftover
  simp only [h6, hlo0, hlast, hg0, Nat.zero_or]
  rw [hv]
theorem pad_leftover_take (r : Nat) (A pending : List Nat) (s : tc_sha3_state_struct)
    (hr : r ≤ 192) (h : Absorbing r A pending s) :
    (pad_leftover s).take r = pending ++ Ref.pad r pending.length := by
  rw [pad_leftover_eq r A pending s hr h]
  have h7 := h.pending_lt
  unfold Ref.pad
  rw [Nat.mod_eq_of_lt h7]
  have hlenY : (pending ++ List.replicate (192 - pending.length) 0).length = 192 := by
    rw [List.length_append, List.length_replicate]; omega
  apply List.ext_getElem?
  intro k
  simp only [List.getElem?_take, List.getElem?_set, List.length_set, hlenY,
    List.getElem?_append, List.getElem?_replicate]
  by_cases hq : r - pending.length = 1
  · have hidx : r - 1 = pending.length := by omega
    simp only [hq, if_true, hidx]
    by_cases hk1 : k < pending.length
    · have h1 : k < r := by omega
      have h2 : pending.length ≠ k := by omega
      simp [hk1, h1, h2]
    · by_cases hk2 : k = pending.length
      · subst hk2
        have h2 : pending.length < 192 := by omega
        simp [h7, h2]
      · have h1 : ¬ k < r := by omega
        have h3 : k - pending.length ≠ 0 := by omega
        simp [hk1, h1, h3, List.getElem?_cons]
  · simp only [hq, if_false]
    by_cases hk1 : k < pending.length
    · have h1 : k < r := by omega
      have h2 : pending.length ≠ k := by omega
      have h3 : r - 1 ≠ k := by omega
      simp [hk1, h1, h2, h3]
    · by_cases hk2 : k = pending.length
      · subst hk2
        have h2 : pending.length < 192 := by omega
        have h3 : r - 1 ≠ pending.length := by omega
        simp [h7, h2, h3]
      · by_cases hk3 : k < r - 1
        · have h1 : k < r := by omega
          have h2 : pending.length ≠ k := fun h => hk2 h.symm
          have h3 : r - 1 ≠ k := by omega
          have h4 : k - pending.length < 192 - pending.length := by omega
          have h5 : k - pending.length ≠ 0 := by omega
          have h6 : k - pending.length - 1 < r - pending.length - 2 := by omega
          simp [hk1, h1, h2, h3, h4, h5, h6, List.getElem?_cons, List.getElem?_append,
            List.getElem?_replicate]
        · by_cases hk4 : k = r - 1
          · subst hk4
            have h1 : r - 1 < r := by omega
            have h2 : r - 1 < 192 := by omega
            have h5 : r - 1 - pending.length ≠ 0 := by omega
            have h6 : ¬ r - 1 - pending.length - 1 < r - pending.length - 2 := by omega
            have h7' : r - 1 - pending.length - 1 - (r - pending.length - 2) = 0 := by omega
            simp [hk1, h1, h2, h5, h6, h7', List.getElem?_cons, List.getElem?_append,
              List.getElem?_replicate]
          · have h1 : ¬ k < r := by omega
            have h5 : k - pending.length ≠ 0 := by omega
            have h6 : ¬ k - pending.length - 1 < r - pending.length - 2 := by omega
            have h7' : k - pending.length - 1 - (r - pending.length - 2) ≠ 0 := by omega
            simp [hk1, h1, h5, h6, h7', List.getElem?_cons, List.getElem?_append,
              List.getElem?_replicate]

theorem pad_leftover_bytes (r : Nat) (A pending : List Nat) (s : tc_sha3_state_struct)
    (hr : r ≤ 192) (h : Absorbing r A pending s) : ∀ a ∈ pad_leftover s, a < 256 := by
  rw [pad_leftover_eq r A pending s hr h]
  intro a ha
  rcases List.mem_or_eq_of_mem_set ha with ha | ha
  · rcases List.mem_or_eq_of_mem_set ha with ha | ha
    · rcases List.mem_append.mp ha with ha | ha
      · have := h.buffered
        rw [← this] at ha
        exact h.buf_bytes a (List.mem_of_mem_take ha)
      · rw [List.eq_of_mem_replicate ha]; decide
    · rw [ha]; decide
  · rw [ha]; split <;> decide

theorem pad_length (r n : Nat) (hr : 0 < r) : (Ref.pad r n).length = r - n % r := by
  unfold Ref.pad
  have := Nat.mod_lt n hr
  split
  · rename_i h; rw [h]; rfl
  · simp only [List.length_append, List.length_replicate, List.length_singleton]
    omega

theorem pad_bytes (r n : Nat) : ∀ a ∈ Ref.pad r n, a < 256 := by
  unfold Ref.pad
  intro a ha
  split at ha
  · rw [List.mem_singleton.mp ha]; decide
  · rcases List.mem_append.mp ha with ha | ha
    · rcases List.mem_append.mp ha with ha | ha
      · rw [List.mem_singleton.mp ha]; decide
      · rw [List.eq_of_mem_replicate ha]; decide
    · rw [List.mem_singleton.mp ha]; decide
theorem lane_bytes_length (a : Nat) : (Ref.lane_bytes a).length = 8 := by
  simp [Ref.lane_bytes]

theorem lane_bytes_getD (a i : Nat) (hi : i < 8) :
    (Ref.lane_bytes a).getD i 0 = a / 256 ^ i % 256 := by
  unfold Ref.lane_bytes
  rw [List.getD_eq_getElem?_getD, getElem?_map_range, if_pos hi]
  rfl

theorem S_byte_eq_ref (S : List Nat) : ∀ i : Nat, S_byte S i = (Ref.state_bytes S).getD i 0 := by
  induction S with
  | nil =>
    intro i
    simp [S_byte, Ref.state_bytes]
  | cons a S ih =>
    intro i
    have hcons : Ref.state_bytes (a :: S) = Ref.lane_bytes a ++ Ref.state_bytes S := rfl
    rw [hcons]
    by_cases hi : i < 8
    · rw [List.getD_append _ _ _ _ (by rw [lane_bytes_length]; exact hi), lane_bytes_getD a i hi]
      unfold S_byte
      have h1 : i / 8 = 0 := Nat.div_eq_of_lt hi
      have h2 : i % 8 = i := Nat.mod_eq_of_lt hi
      rw [h1, h2, List.getD_cons_zero, Nat.shiftRight_eq_div_pow, Nat.pow_mul]
    · rw [List.getD_append_right _ _ _ _ (by rw [lane_bytes_length]; omega), lane_bytes_length,
        ← ih (i - 8)]
      unfold S_byte
      have h1 : i / 8 = (i - 8) / 8 + 1 := by omega
      have h2 : (i - 8) % 8 = i % 8 := by omega
      rw [h1, h2, List.getD_cons_succ]

theorem map_getD_range_take (l : List Nat) (n : Nat) (hn : n ≤ l.length) :
    (List.range n).map (fun i => l.getD i 0) = l.take n := by
  apply List.ext_getElem?
  intro k
  rw [getElem?_map_range, List.getElem?_take]
  by_cases hk : k < n
  · have hk' : k < l.length := by omega
    simp [hk, List.getElem?_eq_getElem hk']
  · simp [hk]

theorem state_bytes_length (S : List Nat) : (Ref.state_bytes S).length = 8 * S.length := by
  induction S with
  | nil => rfl
  | cons a S ih =>
    have hcons : Ref.state_bytes (a :: S) = Ref.lane_bytes a ++ Ref.state_bytes S := rfl
    rw [hcons, List.length_append, lane_bytes_length, ih, List.length_cons]
    omega

theorem map_S_byte_eq_take (S : List Nat) (n : Nat) (hn : n ≤ 8 * S.length) :
    (List.range n).map (S_byte S) = (Ref.state_bytes S).take n := by
  rw [← map_getD_range_take _ n (by rw [state_bytes_length]; exact hn)]
  apply List.map_congr_left
  intro i _
  exact S_byte_eq_ref S i

theorem final_bytes_absorbing (r : Nat) (A pending : List Nat) (s : tc_sha3_state_struct)
    (hr : r ≤ 192) (h : Absorbing r A pending s) (hd : digest_length s ≤ 200) :
    final_bytes s =
      (Ref.state_bytes (Ref.absorb_block r A (pending ++ Ref.pad r pending.length))).take
        (digest_length s) := by
  have hbytes := pad_leftover_bytes r A pending s hr h
  have hS : Lanes64 s.S := h.lanes ▸ h.lanes64
  have habs := absorb_eq_ref { s with leftover := pad_leftover s } hS hbytes
  unfold final_bytes
  simp only []
  rw [habs]
  simp only []
  rw [h.rate, h.lanes, pad_leftover_take r A pending s hr h]
  apply map_S_byte_eq_take
  have hl : Lanes64 (Ref.absorb_block r A (pending ++ Ref.pad r pending.length)) := by
    apply absorb_block_lanes64 _ _ _ h.lanes64
    intro a ha
    rcases List.mem_append.mp ha with ha | ha
    · have := h.buffered
      rw [← this] at ha
      exact h.buf_bytes a (List.mem_of_mem_take ha)
    · exact pad_bytes _ _ a ha
  rw [hl.1]
  exact hd

theorem blocks_split (r : Nat) (hr : 0 < r) (T : List Nat) :
    ∀ (k : Nat) (M : List Nat), M.length / r = k →
      Ref.blocks r (M ++ T) = Ref.blocks r M ++ Ref.blocks r (M.drop (k * r) ++ T) := by
  intro k
  induction k with
  | zero =>
    intro M hk
    have hlt : M.length < r := by
      rcases (Nat.div_eq_zero_iff hr).mp hk with h
      exact h
    rw [blocks_of_lt r M hlt, Nat.zero_mul, List.drop_zero, List.nil_append]
  | succ k ih =>
    intro M hk
    have hge : r ≤ M.length := by
      by_contra hlt
      rw [Nat.div_eq_of_lt (by omega)] at hk
      omega
    have hB : (M.take r).length = r := by
      rw [List.length_take]; omega
    have hk' : (M.drop r).length / r = k := by
      rw [List.length_drop]
      have : M.length = (M.length - r) + r := by omega
      rw [this, Nat.add_div_right _ hr] at hk
      omega
    have hM : M = M.take r ++ M.drop r := (List.take_append_drop r M).symm
    have hdrop : M.drop ((k + 1) * r) = (M.drop r).drop (k * r) := by
      rw [List.drop_drop, Nat.succ_mul, Nat.add_comm]
    rw [hdrop]
    conv_lhs => rw [hM, List.append_assoc, blocks_append r _ _ hr hB, ih _ hk']
    conv_rhs => rw [hM, blocks_append r _ _ hr hB]
    simp only [List.take_append_drop, List.cons_append]

theorem pad_mod (r n : Nat) : Ref.pad r (n % r) = Ref.pad r n := by
  unfold Ref.pad
  rw [Nat.mod_mod]

/-! ### The sponge controller against the sponge reference -/

theorem rate_supported (b : Nat) (hb : b = 224 ∨ b = 256 ∨ b = 384 ∨ b = 512) :
    (init_state b).block_size = Ref.rate b ∧ 0 < Ref.rate b ∧ Ref.rate b ≤ 192 ∧
    b / 8 ≤ 200 := by
  rcases hb with h | h | h | h <;> subst h <;> decide

theorem zero_lanes64 : Lanes64 (List.replicate 25 0) :=
  ⟨List.length_replicate _ _, fun a ha => by rw [List.eq_of_mem_replicate ha]; decide⟩

theorem init_state_absorbing (b : Nat) (hb : b = 224 ∨ b = 256 ∨ b = 384 ∨ b = 512) :
    Absorbing (Ref.rate b) (List.replicate 25 0) [] (init_state b) where
  rate := (rate_supported b hb).1
  lanes := rfl
  lanes64 := zero_lanes64
  buf_len := List.length_replicate _ _
  buf_bytes := fun a ha => by
    have h0 : a = 0 := List.eq_of_mem_replicate ha
    rw [h0]; decide
  offset := rfl
  pending_lt := (rate_supported b hb).2.1
  buffered := rfl

theorem updated_absorbing (b : Nat) (hb : b = 224 ∨ b = 256 ∨ b = 384 ∨ b = 512)
    (M : List Nat) (hM : ∀ x ∈ M, x < 256) :
    Absorbing (Ref.rate b)
      (Ref.absorb_blocks (Ref.rate b) (List.replicate 25 0) (Ref.blocks (Ref.rate b) M))
      (M.drop (M.length / Ref.rate b * Ref.rate b))
      (M.foldl update_byte (init_state b)) := by
  have h := update_fold_absorbing (Ref.rate b) (rate_supported b hb).2.2.1 M _ _ _
    (init_state_absorbing b hb) hM
  rw [List.nil_append] at h
  exact h

theorem final_bytes_eq_sha3 (b : Nat) (hb : b = 224 ∨ b = 256 ∨ b = 384 ∨ b = 512)
    (M : List Nat) (hM : ∀ x ∈ M, x < 256) :
    final_bytes (M.foldl update_byte (init_state b)) = Ref.sha3 b M := by
  obtain ⟨hrate, hr0, hr192, hb200⟩ := rate_supported b hb
  have habs := updated_absorbing b hb M hM
  have hdl : digest_length (M.foldl update_byte (init_state b)) = b / 8 :=
    digest_length_supported _ b hb (by rw [habs.rate]; rfl)
  rw [final_bytes_absorbing _ _ _ _ hr192 habs (by rw [hdl]; exact hb200), hdl]
  unfold Ref.sha3
  have hlen : (M.drop (M.length / Ref.rate b * Ref.rate b)).length = M.length % Ref.rate b := by
    rw [List.length_drop]
    have := Nat.div_add_mod M.length (Ref.rate b)
    rw [Nat.mul_comm] at this
    omega
  have hfull : (M.drop (M.length / Ref.rate b * Ref.rate b) ++ Ref.pad (Ref.rate b) M.length).length
      = Ref.rate b := by
    rw [List.length_append, hlen, pad_length _ _ hr0]
    have := Nat.mod_lt M.length hr0
    omega
  rw [blocks_split (Ref.rate b) hr0 _ _ M rfl, hlen, pad_mod]
  have hlast : Ref.blocks (Ref.rate b)
      (M.drop (M.length / Ref.rate b * Ref.rate b) ++ Ref.pad (Ref.rate b) M.length) =
      [M.drop (M.length / Ref.rate b * Ref.rate b) ++ Ref.pad (Ref.rate b) M.length] := by
    have h := blocks_append (Ref.rate b) _ [] hr0 hfull
    rw [List.append_nil, blocks_of_lt _ [] hr0] at h
    exact h
  rw [hlast]
  unfold Ref.absorb_blocks
  rw [List.foldl_append, List.foldl_cons, List.foldl_nil]

theorem sha3_length (b : Nat) (hb : b = 224 ∨ b = 256 ∨ b = 384 ∨ b = 512)
    (M : List Nat) (hM : ∀ x ∈ M, x < 256) : (Ref.sha3 b M).length = b / 8 := by
  rw [← final_bytes_eq_sha3 b hb M hM]
  unfold final_bytes
  rw [List.length_map, List.length_range]
  exact digest_length_supported _ b hb (by rw [(updated_absorbing b hb M hM).rate]; rfl)

/-- The sponge reference reproduces the two NIST vectors of `tests/test_sha3.c`. -/
theorem reference_known_answers :
    Ref.sha3 256 test_1_m = test_1_expected ∧ Ref.sha3 256 test_2_m = test_2_expected := by
  constructor
  · rw [← final_bytes_eq_sha3 256 (by decide) test_1_m (by decide)]
    exact test_1_bytes.1
  · rw [← final_bytes_eq_sha3 256 (by decide) test_2_m (by decide)]
    exact test_2_bytes.1

/-- C1: for each of the four variants `b` and every byte sequence `M`,
`tc_sha3_init(b)`, one `tc_sha3_update` with `M` and `tc_sha3_final` return success
and write, at the start of the output buffer, the SHA3-`b` digest of `M` of the
sponge reference `Ref.sha3` (padding `0x06 0x00* 0x80` or `0x86` up to the next
multiple of the rate, block-wise XOR of little-endian lanes and Keccak-f[1600]
from the all-zero state, first `b / 8` bytes of the lanes); the digest has
`b / 8` bytes. -/
theorem sha3_matches_reference (s0 : tc_sha3_state_struct) (out : List Nat) (b : Nat)
    (M : List Nat) (hb : b = 224 ∨ b = 256 ∨ b = 384 ∨ b = 512) (hM : ∀ x ∈ M, x < 256) :
    hash_once s0 out b M =
      some { status := TC_CRYPTO_SUCCESS
             digest := some (Ref.sha3 b M ++ out.drop (b / 8))
             state := some zeroed } ∧
    (Ref.sha3 b M).length = b / 8 := by
  refine ⟨?_, sha3_length b hb M hM⟩
  rw [hash_once_supported s0 out b hb M, final_bytes_eq_sha3 b hb M hM,
    digest_length_supported _ b hb (by rw [(updated_absorbing b hb M hM).rate]; rfl)]

/-- Witness of C1: SHA3-256 of the three bytes `"abc"`. -/
theorem sha3_matches_reference_witness :
    ((256 : Nat) = 224 ∨ (256 : Nat) = 256 ∨ (256 : Nat) = 384 ∨ (256 : Nat) = 512) ∧
    (∀ x ∈ test_1_m, x < 256) ∧
    hash_once zeroed (List.replicate 32 0) 256 test_1_m =
      some { status := TC_CRYPTO_SUCCESS
             digest := some (Ref.sha3 256 test_1_m ++ (List.replicate 32 0).drop (256 / 8))
             state := some zeroed } ∧
    (Ref.sha3 256 test_1_m).length = 256 / 8 :=
  ⟨by decide, by decide,
    sha3_matches_reference zeroed (List.replicate 32 0) 256 test_1_m (by decide) (by decide)⟩

/-- C4: padding on an exact block boundary.  For a message of `k` full blocks
(`k ≥ 0`), after `tc_sha3_init(b)` and `tc_sha3_update(M)` the offset is 0 and the
lanes are the result of the `k` absorb passes over the blocks of `M`; in
`tc_sha3_final` the block that is absorbed is the full padding block `0x06`,
`r - 2` zero bytes, `0x80`, and the digest is the first `b / 8` bytes of the lanes
after this `(k + 1)`-th pass. -/
theorem padding_on_block_boundary (s0 : tc_sha3_state_struct) (out : List Nat) (b : Nat)
    (M : List Nat) (k : Nat) (hb : b = 224 ∨ b = 256 ∨ b = 384 ∨ b = 512)
    (hM : ∀ x ∈ M, x < 256) (hlen : M.length = k * ((1600 - 2 * b) / 8)) :
    ∃ t : tc_sha3_state_struct,
      tc_sha3_update (tc_sha3_init (some s0) b).2 (some M) M.length =
        (TC_CRYPTO_SUCCESS, some t) ∧
      t.block_size = (1600 - 2 * b) / 8 ∧
      t.leftover_offset = 0 ∧
      (Ref.blocks ((1600 - 2 * b) / 8) M).length = k ∧
      t.S = Ref.absorb_blocks ((1600 - 2 * b) / 8) (List.replicate 25 0)
        (Ref.blocks ((1600 - 2 * b) / 8) M) ∧
      (pad_leftover t).take t.block_size =
        [0x06] ++ List.replicate ((1600 - 2 * b) / 8 - 2) 0x00 ++ [0x80] ∧
      tc_sha3_final (some out) (some t) =
        some { status := TC_CRYPTO_SUCCESS
               digest := some
                 ((Ref.state_bytes (Ref.absorb_block ((1600 - 2 * b) / 8) t.S
                    ([0x06] ++ List.replicate ((1600 - 2 * b) / 8 - 2) 0x00 ++ [0x80]))).take
                      (b / 8) ++ out.drop (b / 8))
               state := some zeroed } := by
  obtain ⟨hrate, hr0, hr192, hb200⟩ := rate_supported b hb
  have habs := updated_absorbing b hb M hM
  change M.length = k * Ref.rate b at hlen
  have hk : M.length / Ref.rate b = k := by
    rw [hlen, Nat.mul_div_cancel _ hr0]
  have hpend : M.drop (M.length / Ref.rate b * Ref.rate b) = [] := by
    rw [hk, ← hlen, List.drop_length]
  rw [hpend] at habs
  have hdl := digest_length_supported _ b hb
    (show (M.foldl update_byte (init_state b)).block_size = (1600 - 2 * b) / 8 from habs.rate)
  have hpad : Ref.pad (Ref.rate b) 0 =
      [0x06] ++ List.replicate (Ref.rate b - 2) 0x00 ++ [0x80] := by
    rcases hb with h | h | h | h <;> subst h <;> rfl
  have htake := pad_leftover_take _ _ _ _ hr192 habs
  rw [List.nil_append, List.length_nil, hpad] at htake
  have hfin := final_bytes_absorbing _ _ _ _ hr192 habs (by rw [hdl]; exact hb200)
  rw [List.nil_append, List.length_nil, hpad, hdl, ← habs.lanes] at hfin
  refine ⟨M.foldl update_byte (init_state b), ?_, habs.rate, habs.offset, ?_, habs.lanes, ?_, ?_⟩
  · rw [tc_sha3_init_supported s0 b hb]
    exact tc_sha3_update_length (init_state b) M
  · show (Ref.blocks (Ref.rate b) M).length = k
    unfold Ref.blocks
    rw [List.length_map, List.length_range, hk]
  · rw [habs.rate]; exact htake
  · show some _ = some _
    rw [hfin, hdl]
    rfl

/-- Witness of C4: one full block of SHA3-256, 136 bytes `0x61`. -/
theorem padding_on_block_boundary_witness :
    ∃ t : tc_sha3_state_struct,
      tc_sha3_update (tc_sha3_init (some zeroed) 256).2 (some (List.replicate 136 0x61))
          (List.replicate 136 0x61).length = (TC_CRYPTO_SUCCESS, some t) ∧
      t.block_size = (1600 - 2 * 256) / 8 ∧
      t.leftover_offset = 0 ∧
      (Ref.blocks ((1600 - 2 * 256) / 8) (List.replicate 136 0x61)).length = 1 ∧
      t.S = Ref.absorb_blocks ((1600 - 2 * 256) / 8) (List.replicate 25 0)
        (Ref.blocks ((1600 - 2 * 256) / 8) (List.replicate 136 0x61)) ∧
      (pad_leftover t).take t.block_size =
        [0x06] ++ List.replicate ((1600 - 2 * 256) / 8 - 2) 0x00 ++ [0x80] ∧
      tc_sha3_final (some (List.replicate 32 0)) (some t) =
        some { status := TC_CRYPTO_SUCCESS
               digest := some
                 ((Ref.state_bytes (Ref.absorb_block ((1600 - 2 * 256) / 8) t.S
                    ([0x06] ++ List.replicate ((1600 - 2 * 256) / 8 - 2) 0x00 ++ [0x80]))).take
                      (256 / 8) ++ (List.replicate 32 0).drop (256 / 8))
               state := some zeroed } :=
  padding_on_block_boundary zeroed (List.replicate 32 0) 256 (List.replicate 136 0x61) 1
    (by decide) (fun x hx => by rw [List.eq_of_mem_replicate hx]; decide)
    (List.length_replicate 136 0x61)

/-! ### Reachable states -/

theorem update_byte_mod (s : tc_sha3_state_struct) (b : Nat) :
    update_byte s (b % 256) = update_byte s b := by
  unfold update_byte
  rw [Nat.mod_mod]

theorem foldl_update_byte_mod (M : List Nat) :
    ∀ s : tc_sha3_state_struct,
      (M.map (fun b => b % 256)).foldl update_byte s = M.foldl update_byte s := by
  induction M with
  | nil => intro s; rfl
  | cons b M ih =>
    intro s
    rw [List.map_cons, List.foldl_cons, List.foldl_cons, update_byte_mod, ih]

theorem init_success_supported (s0 t : tc_sha3_state_struct) (b : Nat)
    (h : tc_sha3_init (some s0) b = (TC_CRYPTO_SUCCESS, some t)) :
    supported b ∧ t = init_state b := by
  by_cases hb : supported b
  · rw [tc_sha3_init_supported s0 b hb] at h
    exact ⟨hb, (Option.some.inj (Prod.mk.inj h).2).symm⟩
  · rw [tc_sha3_init_unsupported s0 b hb] at h
    have h01 : TC_CRYPTO_FAIL ≠ TC_CRYPTO_SUCCESS := by decide
    exact absurd (Prod.mk.inj h).1 h01

theorem update_success (t t' : tc_sha3_state_struct) (data : Option (List Nat)) (n : Nat)
    (h : tc_sha3_update (some t) data n = (TC_CRYPTO_SUCCESS, some t')) :
    ∃ d : List Nat, data = some d ∧ t' = (d.take n).foldl update_byte t := by
  have h01 : TC_CRYPTO_FAIL ≠ TC_CRYPTO_SUCCESS := by decide
  cases data with
  | none => exact absurd (Prod.mk.inj h).1 h01
  | some d =>
    refine ⟨d, rfl, ?_⟩
    by_cases hn : n = 0
    · subst hn
      have h' : (TC_CRYPTO_SUCCESS, some t) = (TC_CRYPTO_SUCCESS, some t') := h
      rw [List.take_zero, List.foldl_nil]
      exact (Option.some.inj (Prod.mk.inj h').2).symm
    · simp only [tc_sha3_update, hn, if_false] at h
      exact (Option.some.inj (Prod.mk.inj h).2).symm

theorem fold_absorbing (r : Nat) (hr : r ≤ 192) (M A pending : List Nat)
    (s : tc_sha3_state_struct) (h : Absorbing r A pending s) :
    ∃ A' pending', Absorbing r A' pending' (M.foldl update_byte s) := by
  rw [← foldl_update_byte_mod]
  exact ⟨_, _, update_fold_absorbing r hr (M.map fun b => b % 256) A pending s h
    (fun b hb => by
      obtain ⟨x, -, rfl⟩ := List.mem_map.mp hb
      exact Nat.mod_lt _ (by decide))⟩

theorem reachable_absorbing (b : Nat) (t : tc_sha3_state_struct) (h : Reachable b t) :
    supported b ∧ ∃ A pending, Absorbing (Ref.rate b) A pending t := by
  induction h with
  | init s0 t h =>
    obtain ⟨hb, rfl⟩ := init_success_supported s0 t b h
    exact ⟨hb, _, _, init_state_absorbing b hb⟩
  | update t t' data n _ h ih =>
    obtain ⟨hb, A, pending, habs⟩ := ih
    obtain ⟨d, -, rfl⟩ := update_success t t' data n h
    exact ⟨hb, fold_absorbing _ (rate_supported b hb).2.2.1 _ A pending t habs⟩

/-- C11: post-finalize scrub.  Whatever state and output buffer `tc_sha3_final` is
called on, the call returns success and leaves the all-zero state: rate 0, 25
zero lanes, 192 zero buffer bytes, offset 0; and whenever a call of
`tc_sha3_final` returns success, the state it leaves is that same all-zero
state, whatever was hashed. -/
theorem tc_sha3_final_scrubs (s : tc_sha3_state_struct) (out : List Nat) :
    (∃ r : final_result, tc_sha3_final (some out) (some s) = some r ∧
      r.status = TC_CRYPTO_SUCCESS ∧ r.state = some zeroed) ∧
    (∀ (d : Option (List Nat)) (h : TCSha3State_t) (r : final_result),
      tc_sha3_final d h = some r → r.status = TC_CRYPTO_SUCCESS → r.state = some zeroed) ∧
    zeroed.block_size = 0 ∧ zeroed.leftover_offset = 0 ∧
    zeroed.S.length = 25 ∧ (∀ a ∈ zeroed.S, a = 0) ∧
    zeroed.leftover.length = 192 ∧ (∀ a ∈ zeroed.leftover, a = 0) := by
  refine ⟨⟨_, rfl, rfl, rfl⟩, ?_, rfl, rfl, List.length_replicate _ _,
    fun a ha => List.eq_of_mem_replicate ha, List.length_replicate _ _,
    fun a ha => List.eq_of_mem_replicate ha⟩
  intro d h r hr hs
  cases h with
  | none => cases hr
  | some s0 =>
    cases d with
    | none =>
      have hr' := Option.some.inj hr
      rw [← hr'] at hs
      have h01 : TC_CRYPTO_FAIL ≠ TC_CRYPTO_SUCCESS := by decide
      exact absurd hs h01
    | some o =>
      have hr' := Option.some.inj hr
      rw [← hr']

/-- C12: buffer-offset invariant.  For every state reachable by a successful
`tc_sha3_init(b)` followed by successful `tc_sha3_update` calls, the offset is
below the block size, the block size is still the rate `(1600 - 2 b) / 8` that
init set, one of 144, 136, 104, 72; in particular the offset never equals the
rate between calls. -/
theorem offset_invariant (b : Nat) (t : tc_sha3_state_struct) (h : Reachable b t) :
    0 ≤ t.leftover_offset ∧ t.leftover_offset < t.block_size ∧
    t.block_size = (1600 - 2 * b) / 8 ∧ t.leftover_offset ≠ (1600 - 2 * b) / 8 ∧
    (t.block_size = 144 ∨ t.block_size = 136 ∨ t.block_size = 104 ∨ t.block_size = 72) := by
  obtain ⟨hb, A, pending, habs⟩ := reachable_absorbing b t h
  have hrate : t.block_size = (1600 - 2 * b) / 8 := habs.rate
  have hlt : t.leftover_offset < t.block_size := by
    rw [habs.offset, habs.rate]; exact habs.pending_lt
  refine ⟨Nat.zero_le _, hlt, hrate, ?_, ?_⟩
  · rw [← hrate]; exact Nat.ne_of_lt hlt
  · rw [hrate]
    rcases hb with h | h | h | h <;> subst h <;> decide

/-- Witness of C12: the state after `tc_sha3_init(256)` and one update with `"abc"`. -/
theorem offset_invariant_witness :
    0 ≤ (test_1_m.foldl update_byte (init_state 256)).leftover_offset ∧
    (test_1_m.foldl update_byte (init_state 256)).leftover_offset <
      (test_1_m.foldl update_byte (init_state 256)).block_size ∧
    (test_1_m.foldl update_byte (init_state 256)).block_size = (1600 - 2 * 256) / 8 ∧
    (test_1_m.foldl update_byte (init_state 256)).leftover_offset ≠ (1600 - 2 * 256) / 8 ∧
    ((test_1_m.foldl update_byte (init_state 256)).block_size = 144 ∨
      (test_1_m.foldl update_byte (init_state 256)).block_size = 136 ∨
      (test_1_m.foldl update_byte (init_state 256)).block_size = 104 ∨
      (test_1_m.foldl update_byte (init_state 256)).block_size = 72) :=
  offset_invariant 256 _
    (Reachable.update (init_state 256) _ (some test_1_m) 3
      (Reachable.init zeroed (init_state 256) rfl) rfl)

/-! ### The padded final block -/

theorem pad_leftover_form (s : tc_sha3_state_struct) (r o : Nat)
    (hlen : s.leftover.length = 192) (hr : s.block_size = r) (hr192 : r ≤ 192)
    (ho : s.leftover_offset = o) (hor : o < r) :
    pad_leftover s =
      ((s.leftover.take o ++ List.replicate (192 - o) 0).set o 0x06).set (r - 1)
        (if r - o = 1 then 0x86 else 0x80) := by
  have hfill : (sizeof_leftover + (2 ^ 64 - s.leftover_offset % 2 ^ 64)) % 2 ^ 64 = 192 - o := by
    rw [ho]
    show (192 + (2 ^ 64 - o % 2 ^ 64)) % 2 ^ 64 = 192 - o
    omega
  have hlo0 : _set s.leftover s.leftover_offset 0x00
      ((sizeof_leftover + (2 ^ 64 - s.leftover_offset % 2 ^ 64)) % 2 ^ 64) =
      s.leftover.take o ++ List.replicate (192 - o) 0 := by
    rw [hfill]
    unfold _set
    have hd : s.leftover.drop (o + (192 - o)) = [] := by
      apply List.drop_eq_nil_of_le
      rw [hlen]
      omega
    rw [ho, hd, List.append_nil]
  have hlast : (s.block_size + (2 ^ 64 - 1)) % 2 ^ 64 = r - 1 := by
    rw [hr]; omega
  have htl : (s.leftover.take o).length = o := by
    rw [List.length_take, hlen]; omega
  have hg0 : (s.leftover.take o ++ List.replicate (192 - o) 0).getD o 0 = 0 := by
    rw [List.getD_append_right _ _ _ _ (by rw [htl]), htl, Nat.sub_self,
      List.getD_eq_getElem?_getD, List.getElem?_replicate]
    split <;> rfl
  have hv : ((s.leftover.take o ++ List.replicate (192 - o) 0).set o 0x06).getD
      (r - 1) 0 ||| 0x80 = if r - o = 1 then 0x86 else 0x80 := by
    by_cases hq : r - o = 1
    · have hidx : r - 1 = o := by omega
      have hl : o < (s.leftover.take o ++ List.replicate (192 - o) 0).length := by
        rw [List.length_append, List.length_replicate, htl]; omega
      rw [hidx, List.getD_eq_getElem?_getD, List.getElem?_set_self hl, if_pos hq]
      rfl
    · have hne : o ≠ r - 1 := by omega
      have hlt : r - 1 - o < 192 - o := by omega
      rw [List.getD_eq_getElem?_getD, List.getElem?_set_ne hne,
        List.getElem?_append_right (by rw [htl]; omega), htl, List.getElem?_replicate,
        if_pos hlt, if_neg hq]
      rfl
  rw [ho] at hlo0
  unfold pad_leftover
  simp only [ho, hlo0, hlast, hg0, Nat.zero_or]
  rw [hv]

theorem pad_leftover_getElem? (s : tc_sha3_state_struct) (r o k : Nat)
    (hlen : s.leftover.length = 192) (hr : s.block_size = r) (hr192 : r ≤ 192)
    (ho : s.leftover_offset = o) (hor : o < r) (hk : k < r) :
    ((pad_leftover s).take r)[k]? =
      if k < o then s.leftover[k]?
      else if k = o then (if o = r - 1 then some 0x86 else some 0x06)
      else if k = r - 1 then some 0x80 else some 0x00 := by
  rw [pad_leftover_form s r o hlen hr hr192 ho hor]
  have htl : (s.leftover.take o).length = o := by
    rw [List.length_take, hlen]; omega
  have hlenY : (s.leftover.take o ++ List.replicate (192 - o) 0).length = 192 := by
    rw [List.length_append, List.length_replicate, htl]; omega
  simp only [List.getElem?_take, List.getElem?_set, List.length_set, hlenY,
    List.getElem?_append, List.getElem?_replicate, htl, hk, if_true]
  by_cases hk1 : k < o
  · have h2 : o ≠ k := by omega
    have h3 : r - 1 ≠ k := by omega
    simp [hk1, h2, h3]
  · by_cases hk2 : k = o
    · subst hk2
      have h2 : k < 192 := by omega
      by_cases hq : r - k = 1
      · have h3 : r - 1 = k := by omega
        have h4 : k = r - 1 := h3.symm
        simp [h2, hq, h3]
      · have h3 : r - 1 ≠ k := by omega
        have h4 : ¬ k = r - 1 := fun h => h3 h.symm
        simp [h2, hq, h3, h4]
    · have h2 : o ≠ k := fun h => hk2 h.symm
      by_cases hk3 : k = r - 1
      · subst hk3
        have h3 : r - 1 < 192 := by omega
        have hq : ¬ r - o = 1 := by omega
        simp [hk1, hk2, h3, hq]
      · have h3 : r - 1 ≠ k := fun h => hk3 h.symm
        have h4 : k - o < 192 - o := by omega
        simp [hk1, hk2, h2, h3, hk3, h4]

theorem leftover_lane_take (l : List Nat) (i r : Nat) (hi : 8 * i + 8 ≤ r) :
    leftover_lane (l.take r) i = leftover_lane l i := by
  unfold leftover_lane
  apply List.foldl_ext
  intro acc j hj
  have hj8 : j < 8 := List.mem_range.mp hj
  have hjr : 8 * i + j < r := by omega
  simp only [List.getD_eq_getElem?_getD, List.getElem?_take, hjr, if_true]

theorem xor_block_take (S l : List Nat) (r : Nat) :
    xor_block S (l.take r) r = xor_block S l r := by
  unfold xor_block
  rw [foldl_set_range (fun i a => a ^^^ leftover_lane (l.take r) i),
    foldl_set_range (fun i a => a ^^^ leftover_lane l i)]
  apply List.map_congr_left
  intro i _
  by_cases hi : i < r / 8
  · have h8 : 8 * i + 8 ≤ r := by
      have := Nat.mul_div_le r 8
      omega
    simp only [hi, if_true, leftover_lane_take l i r h8]
  · simp only [hi, if_false]

/-- C13: shape of the padded final block.  For a state with block size `r ≤ 192`,
a 192-byte block buffer and offset `o < r`, whatever the buffer holds from
position `o` on, the first `r` bytes of the buffer after the padding statements
of `tc_sha3_final` (the bytes that `absorb` then XORs into the lanes) are: the
buffered bytes below `o`, `0x00` strictly between `o` and `r - 1`, and `0x06`
at `o` with `0x80` at `r - 1` when `o < r - 1`, or the single byte `0x86` at
`o = r - 1`. -/
theorem padded_block_shape (s : tc_sha3_state_struct) (r o : Nat)
    (hlen : s.leftover.length = 192) (hr : s.block_size = r) (hr192 : r ≤ 192)
    (ho : s.leftover_offset = o) (hor : o < r) :
    ((pad_leftover s).take r).length = r ∧
    (∀ k, k < o → ((pad_leftover s).take r).getD k 0 = s.leftover.getD k 0) ∧
    (∀ k, o < k → k < r - 1 → ((pad_leftover s).take r).getD k 0 = 0x00) ∧
    (o < r - 1 → ((pad_leftover s).take r).getD o 0 = 0x06 ∧
      ((pad_leftover s).take r).getD (r - 1) 0 = 0x80) ∧
    (o = r - 1 → ((pad_leftover s).take r).getD o 0 = 0x86) ∧
    (∀ S : List Nat, (absorb { s with S := S, leftover := pad_leftover s }).S =
      keccak_rounds (xor_block S ((pad_leftover s).take r) r)) := by
  have hget := fun k hk => pad_leftover_getElem? s r o k hlen hr hr192 ho hor hk
  refine ⟨?_, ?_, ?_, ?_, ?_, ?_⟩
  · rw [pad_leftover_form s r o hlen hr hr192 ho hor]
    simp only [List.length_take, List.length_set, List.length_append, List.length_replicate,
      hlen]
    omega
  · intro k hk
    rw [List.getD_eq_getElem?_getD, List.getD_eq_getElem?_getD, hget k (by omega), if_pos hk]
  · intro k hk1 hk2
    have h1 : ¬ k < o := by omega
    have h2 : ¬ k = o := by omega
    have h3 : ¬ k = r - 1 := by omega
    rw [List.getD_eq_getElem?_getD, hget k (by omega), if_neg h1, if_neg h2, if_neg h3]
    rfl
  · intro h
    have h1 : ¬ o = r - 1 := by omega
    have h2 : ¬ r - 1 < o := by omega
    have h3 : ¬ r - 1 = o := by omega
    constructor
    · rw [List.getD_eq_getElem?_getD, hget o hor, if_neg (Nat.lt_irrefl o), if_pos rfl,
        if_neg h1]
      rfl
    · rw [List.getD_eq_getElem?_getD, hget (r - 1) (by omega), if_neg h2, if_neg h3,
        if_pos rfl]
      rfl
  · intro h
    rw [List.getD_eq_getElem?_getD, hget o hor, if_neg (Nat.lt_irrefl o), if_pos rfl,
      if_pos h]
    rfl
  · intro S
    simp only [absorb, hr, xor_block_take]

/-- Witness of C13: the state after `tc_sha3_init(256)` and `"abc"`, offset 3. -/
theorem padded_block_shape_witness :
    ((pad_leftover (test_1_m.foldl update_byte (init_state 256))).take 136).length = 136 ∧
    (∀ k, k < 3 →
      ((pad_leftover (test_1_m.foldl update_byte (init_state 256))).take 136).getD k 0 =
        (test_1_m.foldl update_byte (init_state 256)).leftover.getD k 0) ∧
    (∀ k, 3 < k → k < 136 - 1 →
      ((pad_leftover (test_1_m.foldl update_byte (init_state 256))).take 136).getD k 0 = 0x00) ∧
    (3 < 136 - 1 →
      ((pad_leftover (test_1_m.foldl update_byte (init_state 256))).take 136).getD 3 0 = 0x06 ∧
      ((pad_leftover (test_1_m.foldl update_byte (init_state 256))).take 136).getD (136 - 1) 0
        = 0x80) ∧
    (3 = 136 - 1 →
      ((pad_leftover (test_1_m.foldl update_byte (init_state 256))).take 136).getD 3 0 = 0x86) ∧
    (∀ S : List Nat,
      (absorb { test_1_m.foldl update_byte (init_state 256) with
        S := S, leftover := pad_leftover (test_1_m.foldl update_byte (init_state 256)) }).S =
      keccak_rounds (xor_block S
        ((pad_leftover (test_1_m.foldl update_byte (init_state 256))).take 136) 136)) :=
  padded_block_shape (test_1_m.foldl update_byte (init_state 256)) 136 3
    (by decide!) (by decide!) (by decide) (by decide!) (by decide)

/-! ### The step mappings by index -/

theorem of_lanes_getD (f : Nat → Nat → Nat) (x y : Nat) (hx : x < 5) (hy : y < 5) :
    (Ref.of_lanes f).getD (x + 5 * y) 0 = f x y := by
  unfold Ref.of_lanes
  have hi : x + 5 * y < 25 := by omega
  have h1 : (x + 5 * y) % 5 = x := by omega
  have h2 : (x + 5 * y) / 5 = y := by omega
  rw [List.getD_eq_getElem?_getD, getElem?_map_range, if_pos hi, h1, h2]
  rfl

theorem pi_source_perm :
    ((List.range 25).map fun i => (i % 5 + 3 * (i / 5)) % 5 + 5 * (i % 5)).Perm
      (List.range 25) := by
  decide!

/-- C15: the unrolled in-place `pi` equals the index formula: for a 25-lane state
and `x, y` in `0 .. 4`, lane `x + 5 y` of `pi(S)` is lane `((x + 3 y) mod 5) + 5 x`
of `S`; the lanes of `pi(S)` are a permutation of the lanes of `S` (none lost,
duplicated or altered), and lane 0 stays in place. -/
theorem pi_index_formula (S : List Nat) (h : S.length = 25) :
    (∀ x y, x < 5 → y < 5 →
      (pi S).getD (x + 5 * y) 0 = S.getD ((x + 3 * y) % 5 + 5 * x) 0) ∧
    (pi S).length = 25 ∧
    (pi S).Perm S ∧
    (pi S).getD 0 0 = S.getD 0 0 := by
  have hform : ∀ x y, x < 5 → y < 5 →
      (pi S).getD (x + 5 * y) 0 = S.getD ((x + 3 * y) % 5 + 5 * x) 0 := by
    intro x y hx hy
    rw [pi_eq_ref S h]
    unfold Ref.pi
    rw [of_lanes_getD _ x y hx hy]
    rfl
  refine ⟨hform, ?_, ?_, hform 0 0 (by decide) (by decide)⟩
  · rw [pi_eq_ref S h]
    simp [Ref.pi, Ref.of_lanes]
  · have h1 : pi S = ((List.range 25).map fun i =>
        (i % 5 + 3 * (i / 5)) % 5 + 5 * (i % 5)).map fun j => S.getD j 0 := by
      rw [pi_eq_ref S h, List.map_map]
      rfl
    have h2 : S = (List.range 25).map fun j => S.getD j 0 := by
      rw [← h]; exact (map_getD_range S).symm
    rw [h1]
    conv_rhs => rw [h2]
    exact pi_source_perm.map _

/-- Witness of C15: the state whose lane `i` holds the value `i`. -/
theorem pi_index_formula_witness :
    (∀ x y, x < 5 → y < 5 →
      (pi (List.range 25)).getD (x + 5 * y) 0 =
        (List.range 25).getD ((x + 3 * y) % 5 + 5 * x) 0) ∧
    (pi (List.range 25)).length = 25 ∧
    (pi (List.range 25)).Perm (List.range 25) ∧
    (pi (List.range 25)).getD 0 0 = (List.range 25).getD 0 0 :=
  pi_index_formula (List.range 25) (List.length_range 25)

/-- C16: the unrolled in-place `chi` equals the row formula on the input state:
for a state of 25 lanes of 64 bits and `x, y` in `0 .. 4`, lane `x + 5 y` of
`chi(S)` is `S[x + 5 y] XOR ((NOT S[(x + 1) mod 5 + 5 y]) AND S[(x + 2) mod 5 + 5 y])`,
every lane on the right being the value before `chi`; `NOT` is the 64-bit
complement `2 ^ 64 - 1 - a`, which is what the code's `~` computes. -/
theorem chi_row_formula (S : List Nat) (h : Lanes64 S) :
    (∀ x y, x < 5 → y < 5 →
      (chi S).getD (x + 5 * y) 0 =
        S.getD (x + 5 * y) 0 ^^^
          ((2 ^ 64 - 1 - S.getD ((x + 1) % 5 + 5 * y) 0) &&& S.getD ((x + 2) % 5 + 5 * y) 0)) ∧
    (∀ x y, x < 5 → y < 5 →
      (chi S).getD (x + 5 * y) 0 =
        S.getD (x + 5 * y) 0 ^^^
          (not64 (S.getD ((x + 1) % 5 + 5 * y) 0) &&& S.getD ((x + 2) % 5 + 5 * y) 0)) ∧
    (chi S).length = 25 := by
  have hform : ∀ x y, x < 5 → y < 5 →
      (chi S).getD (x + 5 * y) 0 =
        S.getD (x + 5 * y) 0 ^^^
          ((2 ^ 64 - 1 - S.getD ((x + 1) % 5 + 5 * y) 0) &&&
            S.getD ((x + 2) % 5 + 5 * y) 0) := by
    intro x y hx hy
    rw [chi_eq_ref S h]
    unfold Ref.chi
    rw [of_lanes_getD _ x y hx hy]
    rfl
  refine ⟨hform, ?_, ?_⟩
  · intro x y hx hy
    rw [hform x y hx hy, not64_eq_sub _ (getD_lt S _ _ (by decide) h.2)]
  · rw [chi_eq_ref S h]
    simp [Ref.chi, Ref.of_lanes]

/-- Witness of C16: the state whose lane `i` holds the value `i`. -/
theorem chi_row_formula_witness :
    (∀ x y, x < 5 → y < 5 →
      (chi (List.range 25)).getD (x + 5 * y) 0 =
        (List.range 25).getD (x + 5 * y) 0 ^^^
          ((2 ^ 64 - 1 - (List.range 25).getD ((x + 1) % 5 + 5 * y) 0) &&&
            (List.range 25).getD ((x + 2) % 5 + 5 * y) 0)) ∧
    (∀ x y, x < 5 → y < 5 →
      (chi (List.range 25)).getD (x + 5 * y) 0 =
        (List.range 25).getD (x + 5 * y) 0 ^^^
          (not64 ((List.range 25).getD ((x + 1) % 5 + 5 * y) 0) &&&
            (List.range 25).getD ((x + 2) % 5 + 5 * y) 0)) ∧
    (chi (List.range 25)).length = 25 :=
  chi_row_formula (List.range 25) ⟨List.length_range 25, by decide⟩

/-- C17: the unrolled `theta` equals the column-parity formula: for a state of 25
lanes of 64 bits and `x, y` in `0 .. 4`, lane `x + 5 y` of `theta(S)` is
`S[x + 5 y] XOR D[x]`, with `C[x] = S[x] XOR S[x+5] XOR S[x+10] XOR S[x+15] XOR S[x+20]`
and `D[x] = C[(x + 4) mod 5] XOR rotateLeft64(C[(x + 1) mod 5], 1)`, all taken
from the input state; the rotation by one is `(2 a) mod 2 ^ 64 + a / 2 ^ 63`, the
value of the code's `ROTL64(a, 1)`. -/
theorem theta_parity_formula (S : List Nat) (h : Lanes64 S) :
    (∀ x y, x < 5 → y < 5 →
      (theta S).getD (x + 5 * y) 0 =
        S.getD (x + 5 * y) 0 ^^^
          (Ref.C S ((x + 4) % 5) ^^^ Ref.rotl (Ref.C S ((x + 1) % 5)) 1)) ∧
    (∀ x, Ref.C S x =
      S.getD x 0 ^^^ S.getD (x + 5) 0 ^^^ S.getD (x + 10) 0 ^^^ S.getD (x + 15) 0 ^^^
        S.getD (x + 20) 0) ∧
    (∀ a, a < 2 ^ 64 → Ref.rotl a 1 = ROTL64 a 1 ∧ Ref.rotl a 1 = 2 * a % 2 ^ 64 + a / 2 ^ 63) ∧
    (theta S).length = 25 := by
  refine ⟨?_, fun x => rfl, ?_, ?_⟩
  · intro x y hx hy
    rw [theta_eq_ref S h]
    unfold Ref.theta
    rw [of_lanes_getD _ x y hx hy]
    rfl
  · intro a ha
    refine ⟨(ROTL64_eq_rotl a 1 ha (by decide)).symm, ?_⟩
    unfold Ref.rotl
    have h1 : a % 2 ^ (64 - 1) * 2 ^ 1 = 2 * a % 2 ^ 64 := by
      rw [show (2 : Nat) ^ 64 = 2 * 2 ^ 63 from rfl, Nat.mul_mod_mul_left, Nat.mul_comm]
      rfl
    rw [h1]
  · rw [theta_eq_ref S h]
    simp [Ref.theta, Ref.of_lanes]

/-- Witness of C17: the state whose lane `i` holds the value `i`. -/
theorem theta_parity_formula_witness :
    (∀ x y, x < 5 → y < 5 →
      (theta (List.range 25)).getD (x + 5 * y) 0 =
        (List.range 25).getD (x + 5 * y) 0 ^^^
          (Ref.C (List.range 25) ((x + 4) % 5) ^^^
            Ref.rotl (Ref.C (List.range 25) ((x + 1) % 5)) 1)) ∧
    (∀ x, Ref.C (List.range 25) x =
      (List.range 25).getD x 0 ^^^ (List.range 25).getD (x + 5) 0 ^^^
        (List.range 25).getD (x + 10) 0 ^^^ (List.range 25).getD (x + 15) 0 ^^^
        (List.range 25).getD (x + 20) 0) ∧
    (∀ a, a < 2 ^ 64 → Ref.rotl a 1 = ROTL64 a 1 ∧ Ref.rotl a 1 = 2 * a % 2 ^ 64 + a / 2 ^ 63) ∧
    (theta (List.range 25)).length = 25 :=
  theta_parity_formula (List.range 25) ⟨List.length_range 25, by decide⟩

theorem rho_getD (S : List Nat) (i : Nat) (hi : i < 25) (h : S.length = 25) :
    (rho S).getD i 0 = ROTL64 (S.getD i 0) (rho_offsets.getD i 0) := by
  unfold rho
  rw [foldl_set_range (fun i a => ROTL64 a (rho_offsets.getD i 0)), h,
    List.getD_eq_getElem?_getD, getElem?_map_range, if_pos hi]
  have hi' : i < TC_SHA3_PERMUTATION_WIDTH := hi
  simp only [hi', if_true, Option.getD_some]

theorem rho_offsets_lt : ∀ o ∈ rho_offsets, o < 64 := by decide

theorem rho_offsets_triangular :
    rho_offsets.getD 0 0 = 0 ∧
    (∀ t, t < 24 →
      rho_offsets.getD ((Ref.rho_walk t).1 + 5 * (Ref.rho_walk t).2) 0 =
        (t + 1) * (t + 2) / 2 % 64) ∧
    ((List.range 24).map fun t => (Ref.rho_walk t).1 + 5 * (Ref.rho_walk t).2).Perm
      (List.range' 1 24) := by
  decide!

theorem ROTL64_zero (a : Nat) (ha : a < 2 ^ 64) : ROTL64 a 0 = a := by
  rw [ROTL64_eq_rotl a 0 ha (by decide)]
  unfold Ref.rotl
  rw [Nat.sub_zero, Nat.mod_eq_of_lt ha, Nat.div_eq_of_lt ha, Nat.pow_zero, Nat.mul_one,
    Nat.add_zero]

/-- C18: `rho` is the lane rotation of the standard.  For a state of 25 lanes of 64
bits and `i` in `0 .. 24`, lane `i` of `rho(S)` is the left rotation of `S[i]` by
`rho_offsets[i]`; the 25 offsets lie in `0 .. 63` and are those of the
triangular-number rule (`0` at index 0, and `((t + 1)(t + 2) / 2) mod 64` at the
index `x + 5 y` reached after `t` steps of `(x, y) ↦ (y, (2 x + 3 y) mod 5)` from
`(1, 0)`, `t = 0 .. 23`, which visits each index `1 .. 24` once); lane 0 is
returned unchanged, the right shift by `64 - 0` of `ROTL64` contributing no bit,
be it taken as shifting every bit out or with the count reduced modulo 64. -/
theorem rho_rotation (S : List Nat) (h : Lanes64 S) :
    (∀ i, i < 25 →
      (rho S).getD i 0 = Ref.rotl (S.getD i 0) (rho_offsets.getD i 0) ∧
      (rho S).getD i 0 = ROTL64 (S.getD i 0) (rho_offsets.getD i 0)) ∧
    rho_offsets.length = 25 ∧
    (∀ o ∈ rho_offsets, 0 ≤ o ∧ o ≤ 63) ∧
    rho_offsets.getD 0 0 = 0 ∧
    (∀ t, t < 24 →
      rho_offsets.getD ((Ref.rho_walk t).1 + 5 * (Ref.rho_walk t).2) 0 =
        (t + 1) * (t + 2) / 2 % 64) ∧
    ((List.range 24).map fun t => (Ref.rho_walk t).1 + 5 * (Ref.rho_walk t).2).Perm
      (List.range' 1 24) ∧
    Ref.rho_walk 0 = (1, 0) ∧
    (∀ t, Ref.rho_walk (t + 1) =
      ((Ref.rho_walk t).2, (2 * (Ref.rho_walk t).1 + 3 * (Ref.rho_walk t).2) % 5)) ∧
    (rho S).getD 0 0 = S.getD 0 0 ∧
    (∀ a, a < 2 ^ 64 →
      ROTL64 a 0 = a ∧ ((a <<< 0) % 2 ^ 64 ||| a >>> 64) = a ∧
      ((a <<< 0) % 2 ^ 64 ||| a >>> (64 % 64)) = a) := by
  have hget := fun i hi => rho_getD S i hi h.1
  have hoff : ∀ i, i < 25 → rho_offsets.getD i 0 < 64 := fun i _ =>
    getD_lt rho_offsets 64 i (by decide) rho_offsets_lt
  have hS : ∀ i, S.getD i 0 < 2 ^ 64 := fun i => getD_lt S _ i (by decide) h.2
  refine ⟨?_, rfl, ?_, rho_offsets_triangular.1, rho_offsets_triangular.2.1,
    rho_offsets_triangular.2.2, rfl, fun t => rfl, ?_, ?_⟩
  · intro i hi
    exact ⟨by rw [hget i hi, ROTL64_eq_rotl _ _ (hS i) (hoff i hi)], hget i hi⟩
  · intro o ho
    exact ⟨Nat.zero_le _, Nat.le_of_lt_succ (rho_offsets_lt o ho)⟩
  · rw [hget 0 (by decide)]
    exact ROTL64_zero _ (hS 0)
  · intro a ha
    refine ⟨ROTL64_zero a ha, ROTL64_zero a ha, ?_⟩
    show (a <<< 0) % 2 ^ 64 ||| a >>> 0 = a
    rw [Nat.shiftLeft_zero, Nat.shiftRight_zero, Nat.mod_eq_of_lt ha, Nat.or_self]

/-- Witness of C18: the state whose lane `i` holds the value `i`. -/
theorem rho_rotation_witness :
    (∀ i, i < 25 →
      (rho (List.range 25)).getD i 0 =
        Ref.rotl ((List.range 25).getD i 0) (rho_offsets.getD i 0) ∧
      (rho (List.range 25)).getD i 0 =
        ROTL64 ((List.range 25).getD i 0) (rho_offsets.getD i 0)) ∧
    rho_offsets.length = 25 ∧
    (∀ o ∈ rho_offsets, 0 ≤ o ∧ o ≤ 63) ∧
    rho_offsets.getD 0 0 = 0 ∧
    (∀ t, t < 24 →
      rho_offsets.getD ((Ref.rho_walk t).1 + 5 * (Ref.rho_walk t).2) 0 =
        (t + 1) * (t + 2) / 2 % 64) ∧
    ((List.range 24).map fun t => (Ref.rho_walk t).1 + 5 * (Ref.rho_walk t).2).Perm
      (List.range' 1 24) ∧
    Ref.rho_walk 0 = (1, 0) ∧
    (∀ t, Ref.rho_walk (t + 1) =
      ((Ref.rho_walk t).2, (2 * (Ref.rho_walk t).1 + 3 * (Ref.rho_walk t).2) % 5)) ∧
    (rho (List.range 25)).getD 0 0 = (List.range 25).getD 0 0 ∧
    (∀ a, a < 2 ^ 64 →
      ROTL64 a 0 = a ∧ ((a <<< 0) % 2 ^ 64 ||| a >>> 64) = a ∧
      ((a <<< 0) % 2 ^ 64 ||| a >>> (64 % 64)) = a) :=
  rho_rotation (List.range 25) ⟨List.length_range 25, by decide⟩

theorem xor_block_getD (S l : List Nat) (r k : Nat) :
    (xor_block S l r).length = S.length ∧
    (r / 8 ≤ k → (xor_block S l r).getD k 0 = S.getD k 0) ∧
    (k < r / 8 → k < S.length →
      (xor_block S l r).getD k 0 = S.getD k 0 ^^^ leftover_lane l k) := by
  unfold xor_block
  rw [foldl_set_range (fun i a => a ^^^ leftover_lane l i)]
  refine ⟨by simp, ?_, ?_⟩
  · intro hk
    have hnk : ¬ k < r / 8 := by omega
    rw [List.getD_eq_getElem?_getD, getElem?_map_range]
    by_cases hkl : k < S.length
    · simp [hkl, hnk]
    · simp [hkl, List.getElem?_eq_none (Nat.le_of_not_lt hkl)]
  · intro hk hkl
    rw [List.getD_eq_getElem?_getD, getElem?_map_range]
    simp [hkl, hk]

theorem range_24 : List.range 24 = [0, 1, 2, 3, 4, 5, 6, 7, 8, 9, 10, 11, 12, 13, 14, 15, 16,
    17, 18, 19, 20, 21, 22, 23] := by decide

/-- C14: round structure of the permutation engine.  `absorb` changes only the
lanes: after the block XOR it runs the rounds `0, 1, .., 23` in this order, round
`i` being `theta`, then `rho`, then `pi`, then `chi`, then the XOR of entry `i` of
the 24-entry table `iotas` into lane 0, which changes no other lane; the block
XOR changes lane `k < block_size / 8` into `S[k] XOR leftover[k]` and leaves the
lanes from `block_size / 8` on as they were. -/
theorem absorb_round_structure (s : tc_sha3_state_struct) :
    (absorb s).S =
      [0, 1, 2, 3, 4, 5, 6, 7, 8, 9, 10, 11, 12, 13, 14, 15, 16, 17, 18, 19, 20, 21, 22,
        23].foldl
        (fun S i => (chi (pi (rho (theta S)))).set 0
          ((chi (pi (rho (theta S)))).getD 0 0 ^^^ iotas.getD i 0))
        (xor_block s.S s.leftover s.block_size) ∧
    (absorb s).block_size = s.block_size ∧ (absorb s).leftover = s.leftover ∧
    (absorb s).leftover_offset = s.leftover_offset ∧
    iotas.length = 24 ∧ NumberOfRounds = 24 ∧
    (∀ (T : List Nat) (c k : Nat), k ≠ 0 →
      (T.set 0 (T.getD 0 0 ^^^ c)).getD k 0 = T.getD k 0) ∧
    (∀ (T : List Nat) (c : Nat), 0 < T.length →
      (T.set 0 (T.getD 0 0 ^^^ c)).getD 0 0 = T.getD 0 0 ^^^ c) ∧
    (xor_block s.S s.leftover s.block_size).length = s.S.length ∧
    (∀ k, s.block_size / 8 ≤ k →
      (xor_block s.S s.leftover s.block_size).getD k 0 = s.S.getD k 0) ∧
    (∀ k, k < s.block_size / 8 → k < s.S.length →
      (xor_block s.S s.leftover s.block_size).getD k 0 =
        s.S.getD k 0 ^^^ leftover_lane s.leftover k) ∧
    (∀ (T : List Nat) (i : Nat), Lanes64 T → i < 24 →
      (chi (pi (rho (theta T)))).set 0
          ((chi (pi (rho (theta T)))).getD 0 0 ^^^ iotas.getD i 0) =
        Ref.iota (Ref.chi (Ref.pi (Ref.rho (Ref.theta T)))) i) := by
  have hb : (absorb s).block_size = s.block_size := by simp only [absorb]
  have hl : (absorb s).leftover = s.leftover := by simp only [absorb]
  have ho : (absorb s).leftover_offset = s.leftover_offset := by simp only [absorb]
  refine ⟨?_, hb, hl, ho, by decide, by decide, ?_, ?_, (xor_block_getD _ _ _ 0).1,
    fun k => (xor_block_getD _ _ _ k).2.1, fun k => (xor_block_getD _ _ _ k).2.2,
    fun T i hT hi => round_body_eq_ref T i hi hT⟩
  · unfold absorb keccak_rounds NumberOfRounds
    simp only []
    rw [range_24]
    apply List.foldl_ext
    intro S i _
    unfold round_body
    simp only []
  · intro T c k hk
    rw [List.getD_eq_getElem?_getD, List.getElem?_set_ne (fun h => hk h.symm),
      ← List.getD_eq_getElem?_getD]
  · intro T c hT
    rw [List.getD_eq_getElem?_getD (T.set 0 _), List.getElem?_set_self hT]
    rfl

/-! ### What the state represents -/

/-- C19: representation invariant of absorption.  For each variant with rate `r`
and every message `M` of `n` bytes fed through any sequence of `tc_sha3_update`
calls (one per segment of a splitting of `M`) after `tc_sha3_init`, every call
succeeds and in the resulting state the offset is `n mod r`, the first `n mod r`
bytes of the block buffer are the last `n mod r` bytes of `M`, and the lanes are
the result of absorbing (XOR into lanes `0 .. r/8 - 1`, then Keccak-f) the first
`⌊n / r⌋` blocks of `r` bytes of `M`, in order, from the all-zero state. -/
theorem absorption_invariant (s0 : tc_sha3_state_struct) (b : Nat)
    (segs : List (List Nat)) (M : List Nat)
    (hb : b = 224 ∨ b = 256 ∨ b = 384 ∨ b = 512) (hsegs : segs.flatten = M)
    (hM : ∀ x ∈ M, x < 256) :
    ∃ t : tc_sha3_state_struct,
      update_segments (tc_sha3_init (some s0) b).2 segs = (TC_CRYPTO_SUCCESS, some t) ∧
      t.block_size = (1600 - 2 * b) / 8 ∧
      t.leftover_offset = M.length % ((1600 - 2 * b) / 8) ∧
      t.leftover.take (M.length % ((1600 - 2 * b) / 8)) =
        M.drop (M.length - M.length % ((1600 - 2 * b) / 8)) ∧
      t.S = ((List.range (M.length / ((1600 - 2 * b) / 8))).map fun k =>
          (M.drop (k * ((1600 - 2 * b) / 8))).take ((1600 - 2 * b) / 8)).foldl
        (fun A block => Ref.keccak_f (Ref.xor_block ((1600 - 2 * b) / 8) A block))
        (List.replicate 25 0) := by
  have habs := updated_absorbing b hb M hM
  have hr0 := (rate_supported b hb).2.1
  change 0 < (1600 - 2 * b) / 8 at hr0
  have hdm := Nat.div_add_mod M.length ((1600 - 2 * b) / 8)
  have hmul : M.length / ((1600 - 2 * b) / 8) * ((1600 - 2 * b) / 8) =
      M.length - M.length % ((1600 - 2 * b) / 8) := by
    rw [Nat.mul_comm]; omega
  have hlen : (M.drop (M.length / Ref.rate b * Ref.rate b)).length =
      M.length % ((1600 - 2 * b) / 8) := by
    rw [List.length_drop]
    show M.length - M.length / ((1600 - 2 * b) / 8) * ((1600 - 2 * b) / 8) = _
    rw [hmul]
    have := Nat.mod_le M.length ((1600 - 2 * b) / 8)
    omega
  refine ⟨M.foldl update_byte (init_state b), ?_, habs.rate, ?_, ?_, habs.lanes⟩
  · rw [tc_sha3_init_supported s0 b hb]
    show update_segments (some (init_state b)) segs = _
    rw [update_segments_flatten, hsegs]
  · rw [habs.offset, hlen]
  · have hbuf := habs.buffered
    rw [hlen] at hbuf
    rw [hbuf]
    show M.drop (M.length / ((1600 - 2 * b) / 8) * ((1600 - 2 * b) / 8)) = _
    rw [hmul]

/-- Witness of C19: the 56-byte message of `test_2` fed as 3 + 50 + 3 bytes to SHA3-256. -/
theorem absorption_invariant_witness :
    ∃ t : tc_sha3_state_struct,
      update_segments (tc_sha3_init (some zeroed) 256).2
          [test_2_m.take 3, (test_2_m.drop 3).take 50, test_2_m.drop 53] =
        (TC_CRYPTO_SUCCESS, some t) ∧
      t.block_size = (1600 - 2 * 256) / 8 ∧
      t.leftover_offset = test_2_m.length % ((1600 - 2 * 256) / 8) ∧
      t.leftover.take (test_2_m.length % ((1600 - 2 * 256) / 8)) =
        test_2_m.drop (test_2_m.length - test_2_m.length % ((1600 - 2 * 256) / 8)) ∧
      t.S = ((List.range (test_2_m.length / ((1600 - 2 * 256) / 8))).map fun k =>
          (test_2_m.drop (k * ((1600 - 2 * 256) / 8))).take ((1600 - 2 * 256) / 8)).foldl
        (fun A block => Ref.keccak_f (Ref.xor_block ((1600 - 2 * 256) / 8) A block))
        (List.replicate 25 0) :=
  absorption_invariant zeroed 256 [test_2_m.take 3, (test_2_m.drop 3).take 50, test_2_m.drop 53]
    test_2_m (by decide) (by decide) (by decide)

/-! ### The checked embedding agrees with the plain one -/

theorem getElem?_eq_some_getD (l : List Nat) (i : Nat) (h : i < l.length) :
    l[i]? = some (l.getD i 0) := by
  rw [List.getD_eq_getElem?_getD, List.getElem?_eq_getElem h]
  rfl

theorem xor_block_checked_eq (leftover : List Nat) (idx : List Nat) :
    ∀ S : List Nat, (∀ i ∈ idx, i < S.length ∧ 8 * i + 8 ≤ leftover.length) →
      xor_block_checked leftover idx S =
        some (idx.foldl (fun S i => S.set i (S.getD i 0 ^^^ leftover_lane leftover i)) S) := by
  induction idx with
  | nil => intro S _; rfl
  | cons i idx ih =>
    intro S h
    obtain ⟨h1, h2⟩ := h i (List.mem_cons_self _ _)
    have hlane : leftover_lane_checked leftover i = some (leftover_lane leftover i) := by
      unfold leftover_lane_checked
      rw [if_pos h2]
    rw [xor_block_checked, getElem?_eq_some_getD S i h1, hlane]
    simp only [List.foldl_cons]
    apply ih
    intro j hj
    rw [List.length_set]
    exact h j (List.mem_cons_of_mem _ hj)

theorem keccak_rounds_checked_eq (rounds : List Nat) (hr : ∀ i ∈ rounds, i < 24) :
    ∀ S : List Nat, Lanes64 S →
      keccak_rounds_checked rounds S = some (rounds.foldl round_body S) := by
  induction rounds with
  | nil => intro S _; rfl
  | cons i rounds ih =>
    intro S hS
    have hi : i < 24 := hr i (List.mem_cons_self _ _)
    have hlen : S.length = TC_SHA3_PERMUTATION_WIDTH := hS.1
    have hio : iotas[i]? = some (iotas.getD i 0) :=
      getElem?_eq_some_getD iotas i hi
    rw [keccak_rounds_checked, if_pos hlen, hio]
    simp only [List.foldl_cons]
    have hnext : Lanes64 (round_body S i) := by
      rw [round_body_eq_ref S i hi hS]
      exact round_lanes64 S i hi hS
    exact ih (fun j hj => hr j (List.mem_cons_of_mem _ hj)) _ hnext

theorem absorb_checked_eq (s : tc_sha3_state_struct) (hS : Lanes64 s.S)
    (hlen : s.leftover.length = 192) (hb : ∀ a ∈ s.leftover, a < 256)
    (hr : s.block_size ≤ 192) :
    absorb_checked s = some (absorb s) := by
  have hx : xor_block_checked s.leftover (List.range (s.block_size / 8)) s.S =
      some (xor_block s.S s.leftover s.block_size) := by
    apply xor_block_checked_eq
    intro i hi
    have hi' := List.mem_range.mp hi
    have := Nat.mul_div_le s.block_size 8
    rw [hS.1, hlen]
    omega
  have hl : Lanes64 (xor_block s.S s.leftover s.block_size) := by
    rw [xor_block_eq_ref _ _ _ hS.1 hb]
    exact xor_block_lanes64 _ _ _ hS (fun a ha => hb a (List.mem_of_mem_take ha))
  have hk := keccak_rounds_checked_eq (List.range NumberOfRounds)
    (fun i hi => List.mem_range.mp hi) _ hl
  unfold absorb_checked
  rw [hx]
  simp only []
  rw [hk]
  rfl

theorem update_byte_checked_eq (r : Nat) (A pending : List Nat) (s : tc_sha3_state_struct)
    (b : Nat) (hr : r ≤ 192) (h : Absorbing r A pending s) :
    update_byte_checked s b = some (update_byte s b) := by
  obtain ⟨h1, h2, h3, h4, h5, h6, h7, h8⟩ := h
  have hst : store_checked s.leftover s.leftover_offset (b % 256) =
      some (s.leftover.set s.leftover_offset (b % 256)) := by
    unfold store_checked
    rw [if_pos (by rw [h6, h4]; omega)]
  have hbytes : ∀ a ∈ s.leftover.set s.leftover_offset (b % 256), a < 256 := by
    intro a ha
    rcases List.mem_or_eq_of_mem_set ha with ha | ha
    · exact h5 a ha
    · rw [ha]; exact Nat.mod_lt _ (by decide)
  unfold update_byte_checked update_byte
  rw [hst]
  simp only []
  by_cases hc : (s.leftover_offset + 1) % 2 ^ 64 ≥ s.block_size
  · rw [if_pos hc, if_pos hc]
    rw [absorb_checked_eq _ (h2 ▸ h3) (by simp only [List.length_set]; exact h4) hbytes
      (by rw [h1]; exact hr)]
  · rw [if_neg hc, if_neg hc]

theorem update_byte_some_absorbing (r : Nat) (A pending : List Nat)
    (s : tc_sha3_state_struct) (b : Nat) (hr : r ≤ 192) (h : Absorbing r A pending s) :
    ∃ A' pending', Absorbing r A' pending' (update_byte s b) := by
  have h' := fold_absorbing r hr [b] A pending s h
  exact h'

theorem update_loop_checked_eq (r : Nat) (hr : r ≤ 192) (M : List Nat) :
    ∀ (A pending : List Nat) (s : tc_sha3_state_struct), Absorbing r A pending s →
      update_loop_checked M s = some (M.foldl update_byte s) := by
  induction M with
  | nil => intro _ _ s _; rfl
  | cons b M ih =>
    intro A pending s h
    rw [update_loop_checked, update_byte_checked_eq r A pending s b hr h]
    obtain ⟨A', pending', h'⟩ := update_byte_some_absorbing r A pending s b hr h
    exact ih A' pending' _ h'

theorem tc_sha3_update_checked_eq (r : Nat) (hr : r ≤ 192) (A pending : List Nat)
    (s : tc_sha3_state_struct) (h : Absorbing r A pending s) (data : Option (List Nat))
    (n : Nat) :
    tc_sha3_update_checked (some s) data n = some (tc_sha3_update (some s) data n) := by
  cases data with
  | none => rfl
  | some d =>
    unfold tc_sha3_update_checked tc_sha3_update
    by_cases hn : n = 0
    · simp only [hn, if_true]
    · simp only [hn, if_false]
      rw [update_loop_checked_eq r hr _ A pending s h]

theorem pad_leftover_checked_eq (r : Nat) (A pending : List Nat) (s : tc_sha3_state_struct)
    (hr : r ≤ 192) (h : Absorbing r A pending s) :
    pad_leftover_checked s = some (pad_leftover s) := by
  obtain ⟨h1, h2, h3, h4, h5, h6, h7, h8⟩ := h
  have hfill : (sizeof_leftover + (2 ^ 64 - s.leftover_offset % 2 ^ 64)) % 2 ^ 64 =
      192 - s.leftover_offset := by
    show (192 + (2 ^ 64 - s.leftover_offset % 2 ^ 64)) % 2 ^ 64 = 192 - s.leftover_offset
    omega
  have hlast : (s.block_size + (2 ^ 64 - 1)) % 2 ^ 64 = s.block_size - 1 := by
    omega
  have hlen0 : (_set s.leftover s.leftover_offset 0x00 (192 - s.leftover_offset)).length =
      192 := by
    unfold _set
    simp only [List.length_append, List.length_take, List.length_replicate, List.length_drop,
      h4]
    omega
  unfold pad_leftover_checked pad_leftover
  simp only [hfill, hlast]
  rw [if_pos (by rw [h4]; omega),
    getElem?_eq_some_getD _ s.leftover_offset (by rw [hlen0]; omega)]
  simp only []
  rw [getElem?_eq_some_getD _ (s.block_size - 1)
    (by rw [List.length_set, hlen0]; omega)]

theorem tc_sha3_final_checked_eq (b : Nat) (hb : supported b) (A pending : List Nat)
    (s : tc_sha3_state_struct) (h : Absorbing (Ref.rate b) A pending s)
    (digest : Option (List Nat)) :
    tc_sha3_final_checked digest (some s) = tc_sha3_final digest (some s) := by
  obtain ⟨-, -, hr192, hb200⟩ := rate_supported b hb
  cases digest with
  | none => rfl
  | some out =>
    have hpad := pad_leftover_checked_eq _ A pending s hr192 h
    have hbytes := pad_leftover_bytes _ A pending s hr192 h
    have hS : Lanes64 s.S := h.lanes ▸ h.lanes64
    have hlen : (pad_leftover s).length = 192 := by
      rw [pad_leftover_eq _ A pending s hr192 h]
      simp only [List.length_set, List.length_append, List.length_replicate]
      have := h.pending_lt
      omega
    have habs := absorb_checked_eq { s with leftover := pad_leftover s } hS hlen hbytes
      (by rw [h.rate]; exact hr192)
    have hl : (absorb { s with leftover := pad_leftover s }).S.length = 25 := by
      rw [absorb_eq_ref { s with leftover := pad_leftover s } hS hbytes]
      exact (absorb_block_lanes64 _ _ _ hS
        (fun a ha => hbytes a (List.mem_of_mem_take ha))).1
    have hd : digest_length s = b / 8 :=
      digest_length_supported s b hb (by rw [h.rate]; rfl)
    unfold tc_sha3_final_checked tc_sha3_final final_bytes
    simp only [hpad, habs]
    rw [if_pos (by rw [hl, hd]; omega)]

/-- C20: in-bounds access.  In every state reachable by a successful
`tc_sha3_init` followed by successful `tc_sha3_update` calls: the byte index
`leftover_offset` is below the rate and the rate is at most 192; the lane indices
of the XOR loop are below `rate / 8 ≤ 18`; `block_size - 1` does not wrap and is
below 192; the zero-fill length `192 - leftover_offset` does not wrap; the digest
bytes read have indices below `100 - rate / 2 ≤ 64`, inside the 200 bytes of the
25 lanes; and the embedding with checked accesses never returns `none` where the
plain one returns a result: `tc_sha3_update` and `tc_sha3_final` with checks agree
with the plain ones on every argument. -/
theorem accesses_in_bounds (b : Nat) (t : tc_sha3_state_struct) (h : Reachable b t) :
    t.S.length = 25 ∧ t.leftover.length = 192 ∧
    t.leftover_offset < t.block_size ∧ t.block_size ≤ 192 ∧
    t.block_size / 8 ≤ 18 ∧
    1 ≤ t.block_size ∧ (t.block_size + (2 ^ 64 - 1)) % 2 ^ 64 = t.block_size - 1 ∧
    t.block_size - 1 < 192 ∧
    t.leftover_offset ≤ 192 ∧
    (sizeof_leftover + (2 ^ 64 - t.leftover_offset % 2 ^ 64)) % 2 ^ 64 =
      192 - t.leftover_offset ∧
    t.block_size / 2 ≤ 100 ∧ digest_length t = 100 - t.block_size / 2 ∧
    digest_length t ≤ 64 ∧ digest_length t ≤ 8 * t.S.length ∧
    (∀ (data : Option (List Nat)) (n : Nat),
      tc_sha3_update_checked (some t) data n = some (tc_sha3_update (some t) data n)) ∧
    (∀ digest : Option (List Nat),
      tc_sha3_final_checked digest (some t) = tc_sha3_final digest (some t) ∧
      tc_sha3_final_checked digest (some t) ≠ none) := by
  obtain ⟨hb, A, pending, habs⟩ := reachable_absorbing b t h
  obtain ⟨-, hr0, hr192, hb200⟩ := rate_supported b hb
  have hrate : t.block_size = Ref.rate b := habs.rate
  have hoff : t.leftover_offset < t.block_size := by
    rw [habs.offset, habs.rate]; exact habs.pending_lt
  have hS : t.S.length = 25 := by rw [habs.lanes]; exact habs.lanes64.1
  have hd : digest_length t = b / 8 :=
    digest_length_supported t b hb (by rw [hrate]; rfl)
  have hnum : t.block_size / 8 ≤ 18 ∧ t.block_size / 2 ≤ 100 ∧
      b / 8 = 100 - t.block_size / 2 ∧ b / 8 ≤ 64 := by
    rw [hrate]
    rcases hb with h | h | h | h <;> subst h <;> decide
  have hfinal := fun digest => tc_sha3_final_checked_eq b hb A pending t habs digest
  refine ⟨hS, habs.buf_len, hoff, by omega, hnum.1, by omega, by omega, by omega, by omega,
    ?_, hnum.2.1, by rw [hd]; exact hnum.2.2.1, by rw [hd]; exact hnum.2.2.2,
    by rw [hd, hS]; omega,
    fun data n => tc_sha3_update_checked_eq _ hr192 A pending t habs data n, ?_⟩
  · show (192 + (2 ^ 64 - t.leftover_offset % 2 ^ 64)) % 2 ^ 64 = 192 - t.leftover_offset
    omega
  · intro digest
    refine ⟨hfinal digest, ?_⟩
    rw [hfinal digest]
    cases digest <;> simp [tc_sha3_final]

/-- Witness of C20: the state after `tc_sha3_init(256)` and one update with `"abc"`. -/
theorem accesses_in_bounds_witness :
    (test_1_m.foldl update_byte (init_state 256)).S.length = 25 ∧
    (test_1_m.foldl update_byte (init_state 256)).leftover.length = 192 ∧
    (test_1_m.foldl update_byte (init_state 256)).leftover_offset <
      (test_1_m.foldl update_byte (init_state 256)).block_size ∧
    (test_1_m.foldl update_byte (init_state 256)).block_size ≤ 192 ∧
    (test_1_m.foldl update_byte (init_state 256)).block_size / 8 ≤ 18 ∧
    1 ≤ (test_1_m.foldl update_byte (init_state 256)).block_size ∧
    ((test_1_m.foldl update_byte (init_state 256)).block_size + (2 ^ 64 - 1)) % 2 ^ 64 =
      (test_1_m.foldl update_byte (init_state 256)).block_size - 1 ∧
    (test_1_m.foldl update_byte (init_state 256)).block_size - 1 < 192 ∧
    (test_1_m.foldl update_byte (init_state 256)).leftover_offset ≤ 192 ∧
    (sizeof_leftover +
        (2 ^ 64 - (test_1_m.foldl update_byte (init_state 256)).leftover_offset % 2 ^ 64)) %
        2 ^ 64 =
      192 - (test_1_m.foldl update_byte (init_state 256)).leftover_offset ∧
    (test_1_m.foldl update_byte (init_state 256)).block_size / 2 ≤ 100 ∧
    digest_length (test_1_m.foldl update_byte (init_state 256)) =
      100 - (test_1_m.foldl update_byte (init_state 256)).block_size / 2 ∧
    digest_length (test_1_m.foldl update_byte (init_state 256)) ≤ 64 ∧
    digest_length (test_1_m.foldl update_byte (init_state 256)) ≤
      8 * (test_1_m.foldl update_byte (init_state 256)).S.length ∧
    (∀ (data : Option (List Nat)) (n : Nat),
      tc_sha3_update_checked (some (test_1_m.foldl update_byte (init_state 256))) data n =
        some (tc_sha3_update (some (test_1_m.foldl update_byte (init_state 256))) data n)) ∧
    (∀ digest : Option (List Nat),
      tc_sha3_final_checked digest (some (test_1_m.foldl update_byte (init_state 256))) =
        tc_sha3_final digest (some (test_1_m.foldl update_byte (init_state 256))) ∧
      tc_sha3_final_checked digest (some (test_1_m.foldl update_byte (init_state 256))) ≠
        none) :=
  accesses_in_bounds 256 _
    (Reachable.update (init_state 256) _ (some test_1_m) 3
      (Reachable.init zeroed (init_state 256) rfl) rfl)

/-- The checks are real: outside the reachable states the checked functions do
reach their error branch, e.g. with an offset at the end of the block buffer, or
with a block size of zero, where `block_size - 1` wraps. -/
theorem checked_rejects_out_of_bounds :
    update_byte_checked { init_state 256 with leftover_offset := 192 } 0x61 = none ∧
    tc_sha3_final_checked (some []) (some { init_state 256 with block_size := 0 }) = none ∧
    tc_sha3_final_checked (some []) (some { init_state 256 with leftover_offset := 193 }) =
      none := by
  decide!

end TinyCrypt
